import Mathlib

/-!
Verification of the Spatial Contract translation layer of the freecad-mcp
repository (src/freecad_mcp/contract_tools.py and response_filters.py).

Real numbers that the Python code handles as IEEE floats are modelled as
exact rationals, and the quarter-turn rotations used by the contract
(rotation_deg in 0, 90, 180, 270) are modelled by their exact rotation
matrices. Python round(x, 3) is modelled as exact decimal half-even
rounding to three places.
-/

namespace FreecadMcp

/-- A 3D vector with rational coordinates, modelling FreeCAD.Vector. -/
structure Vec3 where
  x : ℚ
  y : ℚ
  z : ℚ
deriving DecidableEq, Repr

instance : Add Vec3 := ⟨fun a b => ⟨a.x + b.x, a.y + b.y, a.z + b.z⟩⟩

instance : Sub Vec3 := ⟨fun a b => ⟨a.x - b.x, a.y - b.y, a.z - b.z⟩⟩

/-- Unit conversion constant from contract_tools.py, MM_TO_M = 0.001,
written as the exact rational 1 / 1000. -/
def MM_TO_M : ℚ := 1 / 1000

/-- Unit conversion constant from contract_tools.py, M_TO_MM = 1000.0. -/
def M_TO_MM : ℚ := 1000

/-- Cosine of q quarter turns (q * 90 degrees), exact. -/
def cosQ (q : ℤ) : ℚ :=
  if q % 4 = 0 then 1 else if q % 4 = 1 then 0 else if q % 4 = 2 then -1 else 0

/-- Sine of q quarter turns (q * 90 degrees), exact. -/
def sinQ (q : ℤ) : ℚ :=
  if q % 4 = 0 then 0 else if q % 4 = 1 then 1 else if q % 4 = 2 then 0 else -1

/-- Rotation of a vector about the +Z axis by q quarter turns.  This models
FreeCAD.Rotation(FreeCAD.Vector(0, 0, 1), 90 * q).multVec exactly: at the
quarter-turn angles used by the contract the rotation matrix has entries
in 0, 1, -1. -/
def rotZ (q : ℤ) (v : Vec3) : Vec3 :=
  ⟨cosQ q * v.x - sinQ q * v.y, sinQ q * v.x + cosQ q * v.y, v.z⟩

/-- Embedding of contract_tools.get_rect_dims_at_rotation (lines 34-50):
returns (h, w) when rotation_deg is 90 or 270 and (w, h) otherwise.  The
rotation value arrives from JSON, so it is modelled as a rational; the
Python membership test rotation_deg in (90, 270) is numeric equality. -/
def get_rect_dims_at_rotation (w h : ℚ) (rotation_deg : ℚ) : ℚ × ℚ :=
  if rotation_deg = 90 ∨ rotation_deg = 270 then (h, w) else (w, h)

/-- Half-even (banker) rounding of a rational to an integer, the rounding
rule of Python round. -/
def roundHalfEven (x : ℚ) : ℤ :=
  let f := Int.floor x
  let r := x - f
  if r < 1 / 2 then f
  else if 1 / 2 < r then f + 1
  else if f % 2 = 0 then f else f + 1

/-- Python round(x, 3) modelled as exact decimal rounding to 3 places. -/
def pyRound3 (x : ℚ) : ℚ := (roundHalfEven (x * 1000) : ℚ) / 1000

/-- A FreeCAD bounding box, native millimetre coordinates. -/
structure BoundBox where
  xMin : ℚ
  xMax : ℚ
  yMin : ℚ
  yMax : ℚ
  zMin : ℚ
  zMax : ℚ
deriving DecidableEq, Repr

/-- A contract envelope: the discriminated union of the JSON payloads
produced by get_envelope. -/
inductive Envelope where
  | circle (diameter : ℚ)
  | rectangle (width length : ℚ)
deriving DecidableEq, Repr

/-- Embedding of get_envelope from the export_contract_json generated code
(contract_tools.py lines 266-277): extents of the bounding box converted
to metres, the circle-versus-rectangle 10 percent heuristic, and the
round(_, 3) on every emitted value. -/
def get_envelope (bbox : BoundBox) : Envelope × ℚ :=
  let width := (bbox.xMax - bbox.xMin) * MM_TO_M
  let length := (bbox.yMax - bbox.yMin) * MM_TO_M
  let height := (bbox.zMax - bbox.zMin) * MM_TO_M
  if |width - length| < 1 / 10 * max width length then
    (Envelope.circle (pyRound3 ((width + length) / 2)), pyRound3 height)
  else
    (Envelope.rectangle (pyRound3 width) (pyRound3 length), pyRound3 height)

/-- A FreeCAD placement restricted to rotations about +Z by quarter turns,
as produced by the two placement-application code paths.  rotQ counts
quarter turns; rotQ = 0 is the identity rotation FreeCAD.Rotation(). -/
structure FcPlacement where
  base : Vec3
  rotQ : ℤ
deriving DecidableEq, Repr

/-- Embedding of the Part::Box branch of the placement loop generated by
import_sitefit_contract (contract_tools.py lines 1497-1514): width and
length are the stored (already rotation-swapped) box dimensions in mm,
x and y the target centre in metres, q the rotation in quarter turns
(rotation_deg = 90 * q).  The base is center_world - R * center_local and
the rotation is applied. -/
def importBoxPlacement (width length x y currentZ : ℚ) (q : ℤ) : FcPlacement :=
  let xmm := x * M_TO_MM
  let ymm := y * M_TO_MM
  let half_x := width / 2
  let half_y := length / 2
  let center_local : Vec3 := ⟨half_x, half_y, 0⟩
  let center_world : Vec3 := ⟨xmm, ymm, currentZ⟩
  { base := center_world - rotZ q center_local, rotQ := q }

/-- Embedding of the Part::Box branch of apply_placements
(contract_tools.py lines 519-532): the base is the simple unrotated
center-to-corner offset and the placement rotation is the identity
FreeCAD.Rotation(), whatever rotation q the placement requested. -/
def applyBoxPlacement (width length x y currentZ : ℚ) (_q : ℤ) : FcPlacement :=
  { base := ⟨x * M_TO_MM - width / 2, y * M_TO_MM - length / 2, currentZ⟩, rotQ := 0 }

/-- The corner formula exactly as the specification words it: the
placement base is center_world - rotation_matrix * center_local with
center_world = (1000 x, 1000 y, previous z) and
center_local = (W / 2, L / 2, 0), and rotation R is applied about the
vertical axis. -/
def specCornerPlacement (w l x y z : ℚ) (q : ℤ) : FcPlacement :=
  { base := (⟨1000 * x, 1000 * y, z⟩ : Vec3) - rotZ q ⟨w / 2, l / 2, 0⟩, rotQ := q }

/-! JSON data model.  Python dicts preserve insertion order, so an object
is a list of key-value pairs; JSON numbers are restricted to the integers,
which covers every number the contract tooling serialises in the claims
under study. -/

inductive Json where
  | null : Json
  | bool (b : Bool) : Json
  | num (n : ℤ) : Json
  | str (s : List Char) : Json
  | arr (elems : List Json) : Json
  | obj (members : List (List Char × Json)) : Json

/-- The sixteen lowercase hexadecimal digit characters. -/
def hexDigitsLower : List Char := "0123456789abcdef".data

/-- The hexadecimal digit character of n mod 16. -/
def nibbleChar (n : ℕ) : Char := hexDigitsLower.getD (n % 16) '0'

/-- Four-digit lowercase hexadecimal rendering of n, as in a JSON \u
escape, for n < 65536. -/
def hex4 (n : ℕ) : List Char :=
  [nibbleChar (n / 4096), nibbleChar (n / 256), nibbleChar (n / 16), nibbleChar n]

/-- The decimal digit character of d mod 10. -/
def digitChar10 (d : ℕ) : Char := hexDigitsLower.getD (d % 10) '0'

/-- Decimal rendering of a natural number, most significant digit first. -/
def natToChars (n : ℕ) : List Char :=
  if n < 10 then [digitChar10 n] else natToChars (n / 10) ++ [digitChar10 (n % 10)]
termination_by n
decreasing_by exact Nat.div_lt_self (by omega) (by omega)

/-- Decimal rendering of an integer, as Python repr writes it. -/
def intToChars (n : ℤ) : List Char :=
  if n < 0 then '-' :: natToChars n.natAbs else natToChars n.toNat

/-- Escape of one character inside a JSON string literal, following
Python json.dumps with ensure_ascii: the two-character escapes for quote,
backslash and the common control characters, a \u escape for other
control characters and for every non-ASCII character, with a surrogate
pair above U+FFFF. -/
def escChar (c : Char) : List Char :=
  if c = '"' then ['\\', '"']
  else if c = '\\' then ['\\', '\\']
  else if c = '\n' then ['\\', 'n']
  else if c = '\r' then ['\\', 'r']
  else if c = '\t' then ['\\', 't']
  else if c.toNat = 8 then ['\\', 'b']
  else if c.toNat = 12 then ['\\', 'f']
  else if c.toNat < 32 ∨ 127 ≤ c.toNat then
    if c.toNat < 65536 then '\\' :: 'u' :: hex4 c.toNat
    else ('\\' :: 'u' :: hex4 (55296 + (c.toNat - 65536) / 1024)) ++
      ('\\' :: 'u' :: hex4 (56320 + (c.toNat - 65536) % 1024))
  else [c]

/-- A JSON string literal: quote, escaped content, quote. -/
def escString (s : List Char) : List Char := '"' :: (s.flatMap escChar ++ ['"'])

/-! Serialisation, modelling Python json.dumps with its default
separators: elements joined by a comma and a space, keys and values
joined by a colon and a space. -/

mutual

def dumpsVal : Json → List Char
  | Json.null => ['n', 'u', 'l', 'l']
  | Json.bool true => ['t', 'r', 'u', 'e']
  | Json.bool false => ['f', 'a', 'l', 's', 'e']
  | Json.num n => intToChars n
  | Json.str s => escString s
  | Json.arr xs => '[' :: (dumpsElems xs ++ [']'])
  | Json.obj kvs => '{' :: (dumpsMembers kvs ++ ['}'])

def dumpsElems : List Json → List Char
  | [] => []
  | [x] => dumpsVal x
  | x :: y :: rest => dumpsVal x ++ (',' :: ' ' :: dumpsElems (y :: rest))

def dumpsMembers : List (List Char × Json) → List Char
  | [] => []
  | [(k, v)] => escString k ++ (':' :: ' ' :: dumpsVal v)
  | (k, v) :: m :: rest =>
      escString k ++ (':' :: ' ' :: dumpsVal v) ++ (',' :: ' ' :: dumpsMembers (m :: rest))

end

/-- Lexicographic comparison of key strings by code point, the order
Python sorted uses on str. -/
def ltChars : List Char → List Char → Bool
  | _, [] => false
  | [], _ :: _ => true
  | a :: as, b :: bs =>
      if a.toNat < b.toNat then true else if b.toNat < a.toNat then false else ltChars as bs

/-- Insertion into a key-sorted member list. -/
def insertSortedKey (kv : List Char × Json) :
    List (List Char × Json) → List (List Char × Json)
  | [] => [kv]
  | kv2 :: rest =>
      if ltChars kv2.1 kv.1 then kv2 :: insertSortedKey kv rest else kv :: kv2 :: rest

/-- Insertion sort of object members by key. -/
def sortByKey (l : List (List Char × Json)) : List (List Char × Json) :=
  l.foldr insertSortedKey []

mutual

def sortKeysVal : Json → Json
  | Json.obj kvs => Json.obj (sortByKey (sortKeysMembers kvs))
  | Json.arr xs => Json.arr (sortKeysElems xs)
  | v => v

def sortKeysElems : List Json → List Json
  | [] => []
  | x :: rest => sortKeysVal x :: sortKeysElems rest

def sortKeysMembers : List (List Char × Json) → List (List Char × Json)
  | [] => []
  | (k, v) :: rest => (k, sortKeysVal v) :: sortKeysMembers rest

end

/-- Python json.dumps with sort_keys=True: every object has its members
sorted by key before serialisation. -/
def dumpsSorted (v : Json) : List Char := dumpsVal (sortKeysVal v)

/-! Response filtering (response_filters.py). -/

/-- A response dictionary: ordered key-value pairs, as a Python dict. -/
abbrev RespDict := List (String × Json)

/-- The two detail levels of response_filters.DetailLevel. -/
inductive DetailLevel where
  | compact
  | full
deriving DecidableEq, Repr

/-- Embedding of response_filters.filter_contract_response (lines 80-107):
full returns the response unchanged; compact copies every top-level entry
except the keys metadata, debug_info and timing.  Iterating a dict and
copying all non-skipped entries is the filter of the entry list. -/
def filter_contract_response (response : RespDict) (detail_level : DetailLevel) : RespDict :=
  match detail_level with
  | DetailLevel.full => response
  | DetailLevel.compact =>
      response.filter (fun kv => !(kv.1 == "metadata" || kv.1 == "debug_info" || kv.1 == "timing"))

/-! The embedded-JSON extractor (contract_tools._extract_json_from_output,
lines 53-113). -/

/-- Embedding of the brace-matching scan of _extract_json_from_output:
character-by-character state of in-string, escape-pending and brace depth,
returning the position one past the character where the depth returns to
zero, or none when the scan runs off the end.  The branch order matches
the Python loop: escape consumption first, then backslash inside a
string, then a quote toggle, then the in-string skip, then braces. -/
def findJsonEnd : List Char → Bool → Bool → ℤ → ℕ → Option ℕ
  | [], _, _, _, _ => none
  | c :: rest, inString, escapeNext, depth, i =>
    if escapeNext then findJsonEnd rest inString false depth (i + 1)
    else if c = '\\' ∧ inString = true then findJsonEnd rest inString true depth (i + 1)
    else if c = '"' then findJsonEnd rest (!inString) escapeNext depth (i + 1)
    else if inString = true then findJsonEnd rest inString escapeNext depth (i + 1)
    else if c = '{' then findJsonEnd rest inString escapeNext (depth + 1) (i + 1)
    else if c = '}' then
      if depth - 1 = 0 then some (i + 1)
      else findJsonEnd rest inString escapeNext (depth - 1) (i + 1)
    else findJsonEnd rest inString escapeNext depth (i + 1)

/-- The candidate substring computed by _extract_json_from_output before
json.loads is applied: empty input and input with no opening brace give
none; otherwise the scan starts at the first opening brace and the
candidate runs up to the position where the depth returns to zero. -/
def extractCandidate (output : List Char) : Option (List Char) :=
  if output.isEmpty then none
  else
    match output.findIdx? (fun c => c == '{') with
    | none => none
    | some firstBrace =>
      let candidate := output.drop firstBrace
      match findJsonEnd candidate false false 0 0 with
      | some jsonEnd => if 0 < jsonEnd then some (candidate.take jsonEnd) else none
      | none => none

/-! A JSON reader modelling Python json.loads on the candidate substring.
The model covers the JSON grammar as the contract tooling serialises it
(numbers restricted to integers); a lone UTF-16 surrogate escape is
modelled as a parse error, a case no json.dumps output contains. -/

/-- JSON whitespace. -/
def isWsChar (c : Char) : Bool := (c == ' ' || c == '\t') || (c == '\n' || c == '\r')

/-- Drop leading JSON whitespace. -/
def skipWs : List Char → List Char
  | [] => []
  | c :: rest => if isWsChar c then skipWs rest else c :: rest

/-- Value of one hexadecimal digit character. -/
def hexVal (c : Char) : Option ℕ :=
  if '0' ≤ c ∧ c ≤ '9' then some (c.toNat - 48)
  else if 'a' ≤ c ∧ c ≤ 'f' then some (c.toNat - 87)
  else if 'A' ≤ c ∧ c ≤ 'F' then some (c.toNat - 55)
  else none

/-- Reads four hexadecimal digits as one UTF-16 code unit. -/
def parseU16 (s : List Char) : Option (ℕ × List Char) :=
  match s with
  | h1 :: h2 :: h3 :: h4 :: rest =>
    match hexVal h1, hexVal h2, hexVal h3, hexVal h4 with
    | some a, some b, some c2, some d => some (a * 4096 + b * 256 + c2 * 16 + d, rest)
    | _, _, _, _ => none
  | _ => none

/-- The second half of a surrogate-pair escape: four more hex digits that
must land in the low-surrogate range. -/
def readUEscapePair (n : ℕ) (more : List Char) : Except String (Char × List Char) :=
  match parseU16 more with
  | none => Except.error "Invalid hex escape"
  | some (m, rest2) =>
    if 56320 ≤ m ∧ m < 57344 then
      Except.ok (Char.ofNat (65536 + (n - 55296) * 1024 + (m - 56320)), rest2)
    else Except.error "Unpaired surrogate"

/-- After a high surrogate the reader requires a second backslash-u
escape. -/
def readUEscapeHigh (n : ℕ) (rest : List Char) : Except String (Char × List Char) :=
  match rest with
  | c1 :: c2 :: more =>
    if c1 = '\\' ∧ c2 = 'u' then readUEscapePair n more
    else Except.error "Unpaired surrogate"
  | _ => Except.error "Unpaired surrogate"

/-- Interpretation of one decoded UTF-16 code unit: a high surrogate must
be followed by a backslash-u low surrogate, a lone low surrogate is an
error, anything else is the scalar value itself. -/
def readUEscapeAux (n : ℕ) (rest : List Char) : Except String (Char × List Char) :=
  if 55296 ≤ n ∧ n < 56320 then readUEscapeHigh n rest
  else if 56320 ≤ n ∧ n < 57344 then Except.error "Unpaired surrogate"
  else Except.ok (Char.ofNat n, rest)

/-- Decodes the hex digits of one backslash-u escape, consuming the low
half of a surrogate pair when the first code unit is a high surrogate. -/
def readUEscape (s : List Char) : Except String (Char × List Char) :=
  match parseU16 s with
  | none => Except.error "Invalid hex escape"
  | some (n, rest) => readUEscapeAux n rest

/-- The single-character escapes of JSON. -/
def readSimpleEscape (e : Char) : Option Char :=
  if e = '"' then some '"'
  else if e = '\\' then some '\\'
  else if e = '/' then some '/'
  else if e = 'b' then some (Char.ofNat 8)
  else if e = 'f' then some (Char.ofNat 12)
  else if e = 'n' then some '\n'
  else if e = 'r' then some '\r'
  else if e = 't' then some '\t'
  else none

/-- Reads the body of a JSON string literal after the opening quote,
returning the decoded characters and the remainder after the closing
quote. -/
def parseStringBody : ℕ → List Char → Except String (List Char × List Char)
  | 0, _ => Except.error "fuel exhausted"
  | _ + 1, [] => Except.error "Unterminated string"
  | fuel + 1, c :: rest =>
    if c = '"' then Except.ok ([], rest)
    else if c = '\\' then
      match rest with
      | [] => Except.error "Unterminated string"
      | e :: rest2 =>
        match readSimpleEscape e with
        | some ch =>
          match parseStringBody fuel rest2 with
          | Except.ok (t, r) => Except.ok (ch :: t, r)
          | Except.error err => Except.error err
        | none =>
          if e = 'u' then
            match readUEscape rest2 with
            | Except.ok (ch, rest3) =>
              match parseStringBody fuel rest3 with
              | Except.ok (t, r) => Except.ok (ch :: t, r)
              | Except.error err => Except.error err
            | Except.error err => Except.error err
          else Except.error "Invalid escape"
    else if c.toNat < 32 then Except.error "Invalid control character"
    else
      match parseStringBody fuel rest with
      | Except.ok (t, r) => Except.ok (c :: t, r)
      | Except.error err => Except.error err

/-- Numeric value of a list of decimal digit characters. -/
def parseDigitsVal (s : List Char) : ℕ := s.foldl (fun a c => 10 * a + (c.toNat - 48)) 0

/-- Reads a string literal value after the opening quote. -/
def parseStrLit (rest : List Char) : Except String (Json × List Char) :=
  match parseStringBody (rest.length + 1) rest with
  | Except.ok (t, r) => Except.ok (Json.str t, r)
  | Except.error err => Except.error err

/-- Reads the tail of the literal true. -/
def parseTrueLit (rest : List Char) : Except String (Json × List Char) :=
  match rest with
  | 'r' :: 'u' :: 'e' :: r => Except.ok (Json.bool true, r)
  | _ => Except.error "Expecting value"

/-- Reads the tail of the literal false. -/
def parseFalseLit (rest : List Char) : Except String (Json × List Char) :=
  match rest with
  | 'a' :: 'l' :: 's' :: 'e' :: r => Except.ok (Json.bool false, r)
  | _ => Except.error "Expecting value"

/-- Reads the tail of the literal null. -/
def parseNullLit (rest : List Char) : Except String (Json × List Char) :=
  match rest with
  | 'u' :: 'l' :: 'l' :: r => Except.ok (Json.null, r)
  | _ => Except.error "Expecting value"

/-- Reads the digits of a negative integer after the minus sign. -/
def parseNumNeg (rest : List Char) : Except String (Json × List Char) :=
  match rest.span (fun d => d.isDigit) with
  | ([], _) => Except.error "Expecting value"
  | (ds, r) => Except.ok (Json.num (-(parseDigitsVal ds : ℤ)), r)

/-- Reads the digits of a nonnegative integer starting at c. -/
def parseNumLit (c : Char) (rest : List Char) : Except String (Json × List Char) :=
  match (c :: rest).span (fun d => d.isDigit) with
  | (ds, r) => Except.ok (Json.num ((parseDigitsVal ds : ℤ)), r)

mutual

/-- Reads one JSON value from the front of the input, returning it and
the remainder. -/
def parseValue : ℕ → List Char → Except String (Json × List Char)
  | 0, _ => Except.error "fuel exhausted"
  | fuel + 1, s =>
    match skipWs s with
    | [] => Except.error "Expecting value"
    | c :: rest => parseValueCore (fuel + 1) c rest
termination_by fuel _s => (fuel, 6)

/-- Dispatch on the first significant character of a value. -/
def parseValueCore : ℕ → Char → List Char → Except String (Json × List Char)
  | 0, _, _ => Except.error "fuel exhausted"
  | fuel + 1, c, rest =>
    if c = '{' then parseObjStart fuel rest
    else if c = '[' then parseArrStart fuel rest
    else if c = '"' then parseStrLit rest
    else if c = 't' then parseTrueLit rest
    else if c = 'f' then parseFalseLit rest
    else if c = 'n' then parseNullLit rest
    else if c = '-' then parseNumNeg rest
    else if c.isDigit then parseNumLit c rest
    else Except.error "Expecting value"
termination_by fuel _c _rest => (fuel, 5)

/-- After an opening brace: an empty object or its first member. -/
def parseObjStart : ℕ → List Char → Except String (Json × List Char)
  | fuel, r0 =>
    match skipWs r0 with
    | '}' :: rest2 => Except.ok (Json.obj [], rest2)
    | r => parseMembers fuel [] r
termination_by fuel _r => (fuel, 4)

/-- After an opening bracket: an empty array or its first element. -/
def parseArrStart : ℕ → List Char → Except String (Json × List Char)
  | fuel, r0 =>
    match skipWs r0 with
    | ']' :: rest2 => Except.ok (Json.arr [], rest2)
    | r => parseElems fuel [] r
termination_by fuel _r => (fuel, 4)

/-- Reads the elements of a nonempty JSON array after the opening
bracket. -/
def parseElems : ℕ → List Json → List Char → Except String (Json × List Char)
  | 0, _, _ => Except.error "fuel exhausted"
  | fuel + 1, acc, s =>
    match parseValue fuel s with
    | Except.error err => Except.error err
    | Except.ok (v, r) => parseElemSep fuel acc v r
termination_by fuel _acc _s => (fuel, 0)

/-- After an array element: a comma continues, a bracket closes. -/
def parseElemSep : ℕ → List Json → Json → List Char → Except String (Json × List Char)
  | fuel, acc, v, r =>
    match skipWs r with
    | c :: r2 =>
      if c = ',' then parseElems fuel (acc ++ [v]) r2
      else if c = ']' then Except.ok (Json.arr (acc ++ [v]), r2)
      else Except.error "Expecting comma delimiter"
    | [] => Except.error "Expecting comma delimiter"
termination_by fuel _acc _v _r => (fuel, 1)

/-- Reads the members of a nonempty JSON object after the opening
brace. -/
def parseMembers : ℕ → List (List Char × Json) → List Char →
    Except String (Json × List Char)
  | 0, _, _ => Except.error "fuel exhausted"
  | fuel + 1, acc, s =>
    match skipWs s with
    | c :: r1 =>
      if c = '"' then parseMemberKey fuel acc r1
      else Except.error "Expecting property name enclosed in double quotes"
    | [] => Except.error "Expecting property name enclosed in double quotes"
termination_by fuel _acc _s => (fuel, 0)

/-- Reads a member key string after its opening quote. -/
def parseMemberKey : ℕ → List (List Char × Json) → List Char →
    Except String (Json × List Char)
  | fuel, acc, r1 =>
    match parseStringBody (r1.length + 1) r1 with
    | Except.error err => Except.error err
    | Except.ok (k, r) => parseMemberColon fuel acc k r
termination_by fuel _acc _r => (fuel, 9)

/-- Expects the colon between a member key and its value. -/
def parseMemberColon : ℕ → List (List Char × Json) → List Char → List Char →
    Except String (Json × List Char)
  | fuel, acc, k, r =>
    match skipWs r with
    | c :: r2 =>
      if c = ':' then parseMemberValue fuel acc k r2
      else Except.error "Expecting colon delimiter"
    | [] => Except.error "Expecting colon delimiter"
termination_by fuel _acc _k _r => (fuel, 8)

/-- Reads a member value. -/
def parseMemberValue : ℕ → List (List Char × Json) → List Char → List Char →
    Except String (Json × List Char)
  | fuel, acc, k, r2 =>
    match parseValue fuel r2 with
    | Except.error err => Except.error err
    | Except.ok (v, r3) => parseMemberSep fuel acc k v r3
termination_by fuel _acc _k _r => (fuel, 7)

/-- After a member: a comma continues, a brace closes. -/
def parseMemberSep : ℕ → List (List Char × Json) → List Char → Json → List Char →
    Except String (Json × List Char)
  | fuel, acc, k, v, r3 =>
    match skipWs r3 with
    | c :: r4 =>
      if c = ',' then parseMembers fuel (acc ++ [(k, v)]) r4
      else if c = '}' then Except.ok (Json.obj (acc ++ [(k, v)]), r4)
      else Except.error "Expecting comma delimiter"
    | [] => Except.error "Expecting comma delimiter"
termination_by fuel _acc _k _v _r => (fuel, 1)

end

/-- Model of Python json.loads: read one value, then require only
whitespace to remain. -/
def parseJson (s : List Char) : Except String Json :=
  match parseValue (s.length + 1) s with
  | Except.error err => Except.error err
  | Except.ok (v, r) =>
    match skipWs r with
    | [] => Except.ok v
    | _ => Except.error "Extra data"

/-- The full _extract_json_from_output pipeline: none when no balanced
candidate exists (Python returns None), the parsed value when the
candidate parses, and a propagated decode error otherwise (Python lets
json.loads raise). -/
def extract_json_from_output (output : List Char) : Except String (Option Json) :=
  match extractCandidate output with
  | none => Except.ok none
  | some candidate =>
    match parseJson candidate with
    | Except.ok v => Except.ok (some v)
    | Except.error err => Except.error err

/-! Document model for the generated apply_placements code
(contract_tools.py lines 468-548). -/

/-- A native placement: base point plus a rotation about +Z recorded in
degrees.  rotationZDeg = 0 is the identity rotation FreeCAD.Rotation(). -/
structure ObjPlacement where
  base : Vec3
  rotationZDeg : ℚ
deriving DecidableEq, Repr

/-- A document object with the fields the placement loop reads: internal
Name, display Label, the optional EquipmentId custom property, TypeId,
the Part::Box Width and Length values in mm, and the placement. -/
structure FcObject where
  name : String
  label : String
  equipmentId : Option String
  typeId : String
  width : ℚ
  length : ℚ
  placement : ObjPlacement
deriving DecidableEq, Repr

/-- Name normalisation used by the fallback lookup: FreeCAD internal
names have hyphens converted to underscores. -/
def normalizeId (equipId : String) : String :=
  String.map (fun c => if c = '-' then '_' else c) equipId

/-- Embedding of find_equipment_by_id (lines 479-494): first object whose
EquipmentId property equals the id, else doc.getObject of the normalized
name, else the label lookup that must return exactly one match. -/
def find_equipment_by_id (doc : List FcObject) (equipId : String) : Option FcObject :=
  match doc.find? (fun o => o.equipmentId == some equipId) with
  | some o => some o
  | none =>
    match doc.find? (fun o => o.name == normalizeId equipId) with
    | some o => some o
    | none =>
      let labelMatches := doc.filter (fun o => o.label == equipId)
      if labelMatches.length = 1 then labelMatches.head? else none

/-- The fields of one placements[] entry that the loop reads.  A missing
key models Python dict.get returning None. -/
structure PlacementItem where
  id : Option String
  structure_id : Option String
  x : Option ℚ
  y : Option ℚ
  rotation_deg : Option ℚ
deriving DecidableEq, Repr

/-- Python truthiness of an optional string: None and the empty string
are falsy. -/
def truthyStr : Option String → Bool
  | none => false
  | some s => !s.isEmpty

/-- The id the loop resolves: p.get(id) or p.get(structure_id), then the
falsy check that raises the per-item missing-id error. -/
def placementObjId (p : PlacementItem) : Option String :=
  let v := if truthyStr p.id then p.id else p.structure_id
  if truthyStr v then v else none

/-- The two per-item error entries the loop appends.  missingId stands
for the message text about a placement missing both id and structure_id;
notFound objId stands for the message that names the unresolved objId. -/
inductive ApplyError where
  | missingId
  | notFound (objId : String)
deriving DecidableEq, Repr

/-- One iteration of the apply_placements loop: resolve the id, record a
per-item error and leave the document untouched when resolution fails,
otherwise update the resolved object.  For a Part::Box the new placement
is the unrotated corner offset with the identity rotation; for any other
shape the centre is used directly with the requested rotation. -/
def applyStep (doc : List FcObject) (p : PlacementItem) :
    List FcObject × Option String × Option ApplyError :=
  match placementObjId p with
  | none => (doc, none, some ApplyError.missingId)
  | some objId =>
    let x := p.x.getD 0 * M_TO_MM
    let y := p.y.getD 0 * M_TO_MM
    let rotation_deg := p.rotation_deg.getD 0
    match find_equipment_by_id doc objId with
    | none => (doc, none, some (ApplyError.notFound objId))
    | some obj =>
      let current_z := obj.placement.base.z
      let newPlacement : ObjPlacement :=
        if obj.typeId = "Part::Box" then
          { base := ⟨x - obj.width / 2, y - obj.length / 2, current_z⟩, rotationZDeg := 0 }
        else
          { base := ⟨x, y, current_z⟩, rotationZDeg := rotation_deg }
      (doc.map (fun o => if o.name == obj.name then { o with placement := newPlacement } else o),
       some objId, none)

/-- The whole apply_placements loop: every placement is processed in
order, updates and errors are accumulated, and no outcome aborts the
remaining items. -/
def apply_placements_loop (doc : List FcObject) :
    List PlacementItem → List FcObject × List String × List ApplyError
  | [] => (doc, [], [])
  | p :: rest =>
    let step := applyStep doc p
    let tail := apply_placements_loop step.1 rest
    (tail.1, step.2.1.toList ++ tail.2.1, step.2.2.toList ++ tail.2.2)

/-! The apply_placements input validation (contract_tools.py lines
447-465), up to the point where the generated code would be sent to the
CAD runtime. -/

/-- Lookup of a key in a JSON object, Python dict access; none for a
missing key or a non-object. -/
def jsonGet (contract : Json) (key : List Char) : Option Json :=
  match contract with
  | Json.obj kvs =>
    match kvs.find? (fun kv => kv.1 == key) with
    | some kv => some kv.2
    | none => none
  | _ => none

/-- Python dict.get with a default. -/
def jsonGetD (contract : Json) (key : List Char) (dflt : Json) : Json :=
  (jsonGet contract key).getD dflt

/-- Python truthiness of a JSON value. -/
def pyFalsy : Json → Bool
  | Json.null => true
  | Json.bool b => !b
  | Json.num n => n == 0
  | Json.str s => s.isEmpty
  | Json.arr xs => xs.isEmpty
  | Json.obj kvs => kvs.isEmpty

/-- The key string placements. -/
def placementsKey : List Char := ['p', 'l', 'a', 'c', 'e', 'm', 'e', 'n', 't', 's']

/-- Outcome of the validation phase of apply_placements: either an early
text reply with no code sent to the CAD runtime, or the decision to build
and execute the placement code for the given placements value. -/
inductive PreflightResult where
  | reply (msg : String)
  | execute (placements : Json)

/-- The placements check shared by every load path: contract.get with the
empty-list default, followed by the Python falsy test. -/
def preflightWithContract (contract : Json) : PreflightResult :=
  let placements := jsonGetD contract placementsKey (Json.arr [])
  if pyFalsy placements then PreflightResult.reply "No placements found in contract"
  else PreflightResult.execute placements

/-- Embedding of the apply_placements entry validation: contract_path
wins when both are supplied (its file content arrives here already
json.load-ed), a dict contract_json is used as is, a string contract_json
goes through json.loads with a parse failure caught by the surrounding
handler, and when neither argument is supplied the explanatory message is
returned before any contract is inspected. -/
def apply_placements_preflight :
    Option Json → Option (Sum (List Char) Json) → PreflightResult
  | none, none => PreflightResult.reply "Either contract_json or contract_path must be provided"
  | some c, _ => preflightWithContract c
  | none, some (Sum.inr d) => preflightWithContract d
  | none, some (Sum.inl s) =>
    match parseJson s with
    | Except.ok c => preflightWithContract c
    | Except.error err => PreflightResult.reply ("Failed to apply placements: " ++ err)

/-! Helper lemmas about the geometric definitions. -/

/-! SHA-256 (FIPS 180-4) as hashlib.sha256 computes it, over lists of
bytes, with 32-bit words as naturals reduced mod 2^32, and the UTF-8
encoding str.encode applies before hashing.  This embeds the hash line
of export_contract_json (contract_tools.py line 345). -/

/-- 2^32, the word modulus. -/
def W32 : ℕ := 4294967296

/-- Bitwise AND of the low n bits. -/
def land32 : ℕ → ℕ → ℕ → ℕ
  | 0, _, _ => 0
  | n + 1, x, y => x % 2 * (y % 2) + 2 * land32 n (x / 2) (y / 2)

/-- Bitwise XOR of the low n bits. -/
def lxor32 : ℕ → ℕ → ℕ → ℕ
  | 0, _, _ => 0
  | n + 1, x, y => (x % 2 + y % 2) % 2 + 2 * lxor32 n (x / 2) (y / 2)

/-- Right rotation of a 32-bit word by n bits. -/
def rotr32 (n x : ℕ) : ℕ := x / 2 ^ n + x % 2 ^ n * 2 ^ (32 - n)

/-- Right shift of a 32-bit word by n bits. -/
def shr32 (n x : ℕ) : ℕ := x / 2 ^ n

/-- The big Sigma0 function. -/
def bsig0 (x : ℕ) : ℕ := lxor32 32 (rotr32 2 x) (lxor32 32 (rotr32 13 x) (rotr32 22 x))

/-- The big Sigma1 function. -/
def bsig1 (x : ℕ) : ℕ := lxor32 32 (rotr32 6 x) (lxor32 32 (rotr32 11 x) (rotr32 25 x))

/-- The small sigma0 function. -/
def ssig0 (x : ℕ) : ℕ := lxor32 32 (rotr32 7 x) (lxor32 32 (rotr32 18 x) (shr32 3 x))

/-- The small sigma1 function. -/
def ssig1 (x : ℕ) : ℕ := lxor32 32 (rotr32 17 x) (lxor32 32 (rotr32 19 x) (shr32 10 x))

/-- The choose function: bits of f where e is set, of g where not. -/
def ch32 (e f g : ℕ) : ℕ := lxor32 32 (land32 32 e f) (land32 32 (4294967295 - e % W32) g)

/-- The majority function. -/
def maj32 (a b c : ℕ) : ℕ :=
  lxor32 32 (land32 32 a b) (lxor32 32 (land32 32 a c) (land32 32 b c))

/-- The 64 round constants. -/
def K256 : List ℕ :=
  [1116352408, 1899447441, 3049323471, 3921009573, 961987163, 1508970993, 2453635748,
   2870763221, 3624381080, 310598401, 607225278, 1426881987, 1925078388, 2162078206,
   2614888103, 3248222580, 3835390401, 4022224774, 264347078, 604807628, 770255983,
   1249150122, 1555081692, 1996064986, 2554220882, 2821834349, 2952996808, 3210313671,
   3336571891, 3584528711, 113926993, 338241895, 666307205, 773529912, 1294757372,
   1396182291, 1695183700, 1986661051, 2177026350, 2456956037, 2730485921, 2820302411,
   3259730800, 3345764771, 3516065817, 3600352804, 4094571909, 275423344, 430227734,
   506948616, 659060556, 883997877, 958139571, 1322822218, 1537002063, 1747873779,
   1955562222, 2024104815, 2227730452, 2361852424, 2428436474, 2756734187, 3204031479,
   3329325298]

/-- The eight working variables of the compression function. -/
structure Hs where
  a : ℕ
  b : ℕ
  c : ℕ
  d : ℕ
  e : ℕ
  f : ℕ
  g : ℕ
  h : ℕ
deriving Repr

/-- The initial hash value. -/
def initH : Hs :=
  ⟨1779033703, 3144134277, 1013904242, 2773480762, 1359893119, 2600822924, 528734635,
   1541459225⟩

/-- One round of the compression function on a constant-word pair. -/
def roundStep (st : Hs) (kw : ℕ × ℕ) : Hs :=
  let t1 := (st.h + bsig1 st.e + ch32 st.e st.f st.g + kw.1 + kw.2) % W32
  let t2 := (bsig0 st.a + maj32 st.a st.b st.c) % W32
  ⟨(t1 + t2) % W32, st.a, st.b, st.c, (st.d + t1) % W32, st.e, st.f, st.g⟩

/-- Message schedule extension on a reversed word list: n more words,
each from the words 2, 7, 15 and 16 places back. -/
def schedRev : ℕ → List ℕ → List ℕ
  | 0, ws => ws
  | n + 1, ws =>
      schedRev n
        (((ssig1 (ws.getD 1 0) + ws.getD 6 0 + ssig0 (ws.getD 14 0) + ws.getD 15 0) % W32)
          :: ws)

/-- One 16-word block: extend the schedule to 64 words, run 64 rounds,
add the result to the incoming state. -/
def processBlock (st : Hs) (block : List ℕ) : Hs :=
  let w := (schedRev 48 block.reverse).reverse
  let r := (List.zip K256 w).foldl roundStep st
  ⟨(st.a + r.a) % W32, (st.b + r.b) % W32, (st.c + r.c) % W32, (st.d + r.d) % W32,
   (st.e + r.e) % W32, (st.f + r.f) % W32, (st.g + r.g) % W32, (st.h + r.h) % W32⟩

/-- Big-endian 32-bit words from a byte list. -/
def words32 : List ℕ → List ℕ
  | b0 :: b1 :: b2 :: b3 :: rest =>
      (((b0 * 256 + b1) * 256 + b2) * 256 + b3) :: words32 rest
  | _ => []

/-- Groups of 16 words. -/
def chunk16 : List ℕ → List (List ℕ)
  | w0 :: w1 :: w2 :: w3 :: w4 :: w5 :: w6 :: w7 :: w8 :: w9 :: w10 :: w11 :: w12 :: w13
      :: w14 :: w15 :: rest =>
      [w0, w1, w2, w3, w4, w5, w6, w7, w8, w9, w10, w11, w12, w13, w14, w15] :: chunk16 rest
  | _ => []

/-- Big-endian 8-byte rendering of the bit length. -/
def lenBytes (n : ℕ) : List ℕ :=
  [n / 2 ^ 56 % 256, n / 2 ^ 48 % 256, n / 2 ^ 40 % 256, n / 2 ^ 32 % 256,
   n / 2 ^ 24 % 256, n / 2 ^ 16 % 256, n / 2 ^ 8 % 256, n % 256]

/-- SHA-256 padding: the 0x80 byte, zeros to 56 mod 64, the bit length. -/
def padMsg (msg : List ℕ) : List ℕ :=
  msg ++ 128 :: (List.replicate ((55 + 64 - msg.length % 64) % 64) 0 ++
    lenBytes (8 * msg.length))

/-- The SHA-256 state after hashing a byte list. -/
def sha256 (msg : List ℕ) : Hs := (chunk16 (words32 (padMsg msg))).foldl processBlock initH

/-- Eight lowercase hex digits of a 32-bit word. -/
def hex8 (n : ℕ) : List Char := hex4 (n / 65536) ++ hex4 (n % 65536)

/-- The 64-character lowercase hex digest, as hexdigest returns it. -/
def hexDigest (st : Hs) : List Char :=
  hex8 st.a ++ (hex8 st.b ++ (hex8 st.c ++ (hex8 st.d ++ (hex8 st.e ++ (hex8 st.f ++
    (hex8 st.g ++ hex8 st.h))))))

/-- UTF-8 bytes of a character list, as Python str.encode produces. -/
def utf8Bytes (s : List Char) : List ℕ :=
  s.flatMap (fun c =>
    let n := c.toNat
    if n < 128 then [n]
    else if n < 2048 then [192 + n / 64, 128 + n % 64]
    else if n < 65536 then [224 + n / 4096, 128 + n / 64 % 64, 128 + n % 64]
    else [240 + n / 262144, 128 + n / 4096 % 64, 128 + n / 64 % 64, 128 + n % 64])

/-- The metadata.hash value export_contract_json stores (line 345): the
literal scheme tag followed by the first 16 hex digits of the SHA-256 of
the sorted-key serialization of the equipment list. -/
def export_metadata_hash (equipment : List Json) : List Char :=
  "sha256:".data ++
    (hexDigest (sha256 (utf8Bytes (dumpsSorted (Json.arr equipment))))).take 16

/-- The value the spec sentence describes, read literally: just the first
16 hex digits of that digest, with no scheme tag. -/
def specTruncatedHash (equipment : List Json) : List Char :=
  (hexDigest (sha256 (utf8Bytes (dumpsSorted (Json.arr equipment))))).take 16

theorem Vec3.add_def (a b : Vec3) : a + b = ⟨a.x + b.x, a.y + b.y, a.z + b.z⟩ := rfl

theorem Vec3.sub_def (a b : Vec3) : a - b = ⟨a.x - b.x, a.y - b.y, a.z - b.z⟩ := rfl

theorem Vec3.eq_components (a b : Vec3) : a = b ↔ a.x = b.x ∧ a.y = b.y ∧ a.z = b.z := by
  cases a
  cases b
  simp

theorem FcPlacement.eq_fields (a b : FcPlacement) :
    a = b ↔ a.base = b.base ∧ a.rotQ = b.rotQ := by
  cases a
  cases b
  simp

theorem importBoxPlacement_base (width length x y currentZ : ℚ) (q : ℤ) :
    (importBoxPlacement width length x y currentZ q).base =
      (⟨x * M_TO_MM, y * M_TO_MM, currentZ⟩ : Vec3) - rotZ q ⟨width / 2, length / 2, 0⟩ := rfl

theorem importBoxPlacement_rotQ (width length x y currentZ : ℚ) (q : ℤ) :
    (importBoxPlacement width length x y currentZ q).rotQ = q := rfl

theorem rotZ_one (v : Vec3) : rotZ 1 v = ⟨-v.y, v.x, v.z⟩ := by
  have hc : cosQ 1 = 0 := by norm_num [cosQ]
  have hs : sinQ 1 = 1 := by norm_num [sinQ]
  simp [rotZ, hc, hs]

/-! Character-class facts used by the scanner and reader proofs. -/

theorem digitChar10_facts (d : ℕ) :
    (digitChar10 d).isDigit = true ∧ isWsChar (digitChar10 d) = false ∧
    digitChar10 d ≠ '"' ∧ digitChar10 d ≠ '{' ∧ digitChar10 d ≠ '}' ∧
    digitChar10 d ≠ '\\' ∧ digitChar10 d ≠ '[' ∧ digitChar10 d ≠ 't' ∧
    digitChar10 d ≠ 'f' ∧ digitChar10 d ≠ 'n' ∧ digitChar10 d ≠ '-' ∧
    (digitChar10 d).toNat = 48 + d % 10 := by
  have h : d % 10 < 10 := Nat.mod_lt _ (by norm_num)
  unfold digitChar10
  generalize hk : d % 10 = k at h ⊢
  interval_cases k <;> exact (by decide)

theorem nibbleChar_facts (n : ℕ) :
    nibbleChar n ≠ '"' ∧ nibbleChar n ≠ '\\' ∧ hexVal (nibbleChar n) = some (n % 16) := by
  have h : n % 16 < 16 := Nat.mod_lt _ (by norm_num)
  unfold nibbleChar
  generalize hk : n % 16 = k at h ⊢
  interval_cases k <;> exact (by decide)

theorem natToChars_chars (m : ℕ) : ∀ c ∈ natToChars m, ∃ d, c = digitChar10 d := by
  induction m using Nat.strong_induction_on with
  | _ m ih =>
    rw [natToChars]
    by_cases h : m < 10
    · simp only [if_pos h, List.mem_singleton]
      rintro c rfl
      exact ⟨m, rfl⟩
    · simp only [if_neg h, List.mem_append, List.mem_singleton]
      rintro c (hc | rfl)
      · exact ih (m / 10) (Nat.div_lt_self (by omega) (by omega)) c hc
      · exact ⟨m % 10, rfl⟩

theorem natToChars_ne_nil (m : ℕ) : natToChars m ≠ [] := by
  rw [natToChars]
  by_cases h : m < 10
  · simp [h]
  · simp only [if_neg h]
    intro hc
    exact absurd (List.append_eq_nil.mp hc).2 (by simp)

/-! Single-step behaviour of the brace scan. -/

theorem findJsonEnd_step_plain (c : Char) (cs : List Char) (d : ℤ) (i : ℕ)
    (h1 : c ≠ '"') (h2 : c ≠ '{') (h3 : c ≠ '}') :
    findJsonEnd (c :: cs) false false d i = findJsonEnd cs false false d (i + 1) := by
  simp [findJsonEnd, h1, h2, h3]

theorem findJsonEnd_step_inString (c : Char) (cs : List Char) (d : ℤ) (i : ℕ)
    (h1 : c ≠ '"') (h2 : c ≠ '\\') :
    findJsonEnd (c :: cs) true false d i = findJsonEnd cs true false d (i + 1) := by
  simp [findJsonEnd, h1, h2]

theorem findJsonEnd_step_quoteOpen (cs : List Char) (d : ℤ) (i : ℕ) :
    findJsonEnd ('"' :: cs) false false d i = findJsonEnd cs true false d (i + 1) := rfl

theorem findJsonEnd_step_quoteClose (cs : List Char) (d : ℤ) (i : ℕ) :
    findJsonEnd ('"' :: cs) true false d i = findJsonEnd cs false false d (i + 1) := rfl

theorem findJsonEnd_step_escPair (e : Char) (cs : List Char) (d : ℤ) (i : ℕ) :
    findJsonEnd ('\\' :: e :: cs) true false d i = findJsonEnd cs true false d (i + 2) := rfl

theorem findJsonEnd_step_open (cs : List Char) (d : ℤ) (i : ℕ) :
    findJsonEnd ('{' :: cs) false false d i = findJsonEnd cs false false (d + 1) (i + 1) := rfl

theorem findJsonEnd_step_close (cs : List Char) (d : ℤ) (i : ℕ) :
    findJsonEnd ('}' :: cs) false false d i =
      if d - 1 = 0 then some (i + 1) else findJsonEnd cs false false (d - 1) (i + 1) := rfl

theorem findJsonEnd_plain_list (s rest : List Char) (d : ℤ) (i : ℕ)
    (h : ∀ c ∈ s, c ≠ '"' ∧ c ≠ '{' ∧ c ≠ '}') :
    findJsonEnd (s ++ rest) false false d i =
      findJsonEnd rest false false d (i + s.length) := by
  induction s generalizing i with
  | nil => simp
  | cons c cs ih =>
    obtain ⟨h1, h2, h3⟩ := h c (by simp)
    rw [List.cons_append, findJsonEnd_step_plain c _ _ _ h1 h2 h3,
      ih (i + 1) (fun c hc => h c (List.mem_cons_of_mem _ hc))]
    congr 1
    simp
    omega

theorem findJsonEnd_inString_safe (s rest : List Char) (d : ℤ) (i : ℕ)
    (h : ∀ c ∈ s, c ≠ '"' ∧ c ≠ '\\') :
    findJsonEnd (s ++ rest) true false d i =
      findJsonEnd rest true false d (i + s.length) := by
  induction s generalizing i with
  | nil => simp
  | cons c cs ih =>
    obtain ⟨h1, h2⟩ := h c (by simp)
    rw [List.cons_append, findJsonEnd_step_inString c _ _ _ h1 h2,
      ih (i + 1) (fun c hc => h c (List.mem_cons_of_mem _ hc))]
    congr 1
    simp
    omega

theorem hex4_safe (n : ℕ) : ∀ c ∈ hex4 n, c ≠ '"' ∧ c ≠ '\\' := by
  intro c hc
  simp only [hex4, List.mem_cons, List.not_mem_nil, or_false] at hc
  rcases hc with rfl | rfl | rfl | rfl <;>
    exact ⟨(nibbleChar_facts _).1, (nibbleChar_facts _).2.1⟩

theorem findJsonEnd_escChar (c : Char) (rest : List Char) (d : ℤ) (i : ℕ) :
    findJsonEnd (escChar c ++ rest) true false d i =
      findJsonEnd rest true false d (i + (escChar c).length) := by
  set_option maxRecDepth 4000 in
  unfold escChar
  split_ifs with h1 h2 h3 h4 h5 h6 h7 h8 h9
  · exact findJsonEnd_step_escPair _ _ _ _
  · exact findJsonEnd_step_escPair _ _ _ _
  · exact findJsonEnd_step_escPair _ _ _ _
  · exact findJsonEnd_step_escPair _ _ _ _
  · exact findJsonEnd_step_escPair _ _ _ _
  · exact findJsonEnd_step_escPair _ _ _ _
  · exact findJsonEnd_step_escPair _ _ _ _
  · rw [show ('\\' :: 'u' :: hex4 c.toNat) ++ rest = '\\' :: 'u' :: (hex4 c.toNat ++ rest) by simp,
      findJsonEnd_step_escPair, findJsonEnd_inString_safe _ _ _ _ (hex4_safe _)]
    congr 1
  · rw [show (('\\' :: 'u' :: hex4 (55296 + (c.toNat - 65536) / 1024)) ++
        ('\\' :: 'u' :: hex4 (56320 + (c.toNat - 65536) % 1024))) ++ rest =
        '\\' :: 'u' :: (hex4 (55296 + (c.toNat - 65536) / 1024) ++
          ('\\' :: 'u' :: (hex4 (56320 + (c.toNat - 65536) % 1024) ++ rest))) by simp,
      findJsonEnd_step_escPair, findJsonEnd_inString_safe _ _ _ _ (hex4_safe _),
      findJsonEnd_step_escPair, findJsonEnd_inString_safe _ _ _ _ (hex4_safe _)]
    have e2 : i + 2 + (hex4 (55296 + (c.toNat - 65536) / 1024)).length + 2 +
        (hex4 (56320 + (c.toNat - 65536) % 1024)).length =
        i + ((('\\' :: 'u' :: hex4 (55296 + (c.toNat - 65536) / 1024)) ++
          ('\\' :: 'u' :: hex4 (56320 + (c.toNat - 65536) % 1024))).length) := by
      simp only [hex4, List.length_cons, List.length_append]
      omega
    rw [e2]
  · rw [List.singleton_append, findJsonEnd_step_inString c _ _ _ h1 h2]
    rfl

theorem findJsonEnd_escContent (s : List Char) (rest : List Char) (d : ℤ) (i : ℕ) :
    findJsonEnd (s.flatMap escChar ++ rest) true false d i =
      findJsonEnd rest true false d (i + (s.flatMap escChar).length) := by
  induction s generalizing i with
  | nil => simp
  | cons c cs ih =>
    rw [List.flatMap_cons, List.append_assoc, findJsonEnd_escChar, ih]
    congr 1
    simp
    omega

theorem findJsonEnd_escString (s : List Char) (rest : List Char) (d : ℤ) (i : ℕ) :
    findJsonEnd (escString s ++ rest) false false d i =
      findJsonEnd rest false false d (i + (escString s).length) := by
  show findJsonEnd ('"' :: ((s.flatMap escChar ++ ['"']) ++ rest)) false false d i = _
  rw [List.append_assoc, List.singleton_append, findJsonEnd_step_quoteOpen,
    findJsonEnd_escContent, findJsonEnd_step_quoteClose]
  congr 1
  simp [escString]
  omega

theorem intToChars_plain (n : ℤ) :
    ∀ c ∈ intToChars n, c ≠ '"' ∧ c ≠ '{' ∧ c ≠ '}' := by
  intro c hc
  unfold intToChars at hc
  have digits : ∀ m : ℕ, c ∈ natToChars m → c ≠ '"' ∧ c ≠ '{' ∧ c ≠ '}' := by
    intro m hm
    obtain ⟨d, rfl⟩ := natToChars_chars m c hm
    exact ⟨(digitChar10_facts d).2.2.1, (digitChar10_facts d).2.2.2.1,
      (digitChar10_facts d).2.2.2.2.1⟩
  split_ifs at hc with hneg
  · rcases List.mem_cons.mp hc with rfl | hc
    · exact ⟨by decide, by decide, by decide⟩
    · exact digits _ hc
  · exact digits _ hc

/-! Scanning straight through a serialised value: from any non-string
state at depth at least 1 the scanner consumes the whole serialisation
and does not stop inside it. -/

mutual

theorem scanDumpsVal (v : Json) (rest : List Char) (d : ℤ) (i : ℕ) (hd : 1 ≤ d) :
    findJsonEnd (dumpsVal v ++ rest) false false d i =
      findJsonEnd rest false false d (i + (dumpsVal v).length) := by
  cases v with
  | null =>
    rw [show dumpsVal Json.null = ['n', 'u', 'l', 'l'] from rfl]
    exact findJsonEnd_plain_list _ _ _ _ (by decide)
  | bool b =>
    cases b
    · rw [show dumpsVal (Json.bool false) = ['f', 'a', 'l', 's', 'e'] from rfl]
      exact findJsonEnd_plain_list _ _ _ _ (by decide)
    · rw [show dumpsVal (Json.bool true) = ['t', 'r', 'u', 'e'] from rfl]
      exact findJsonEnd_plain_list _ _ _ _ (by decide)
  | num n =>
    rw [show dumpsVal (Json.num n) = intToChars n from rfl]
    exact findJsonEnd_plain_list _ _ _ _ (intToChars_plain n)
  | str s =>
    rw [show dumpsVal (Json.str s) = escString s from rfl]
    exact findJsonEnd_escString _ _ _ _
  | arr xs =>
    rw [show dumpsVal (Json.arr xs) = '[' :: (dumpsElems xs ++ [']']) from rfl]
    rw [show ('[' :: (dumpsElems xs ++ [']'])) ++ rest =
      '[' :: (dumpsElems xs ++ (']' :: rest)) by simp]
    rw [findJsonEnd_step_plain '[' _ _ _ (by decide) (by decide) (by decide)]
    rw [scanDumpsElems xs (']' :: rest) d (i + 1) hd]
    rw [findJsonEnd_step_plain ']' _ _ _ (by decide) (by decide) (by decide)]
    congr 1
    simp
    omega
  | obj kvs =>
    rw [show dumpsVal (Json.obj kvs) = '{' :: (dumpsMembers kvs ++ ['}']) from rfl]
    rw [show ('{' :: (dumpsMembers kvs ++ ['}'])) ++ rest =
      '{' :: (dumpsMembers kvs ++ ('}' :: rest)) by simp]
    rw [findJsonEnd_step_open, scanDumpsMembers kvs ('}' :: rest) (d + 1) (i + 1) (by omega),
      findJsonEnd_step_close]
    rw [if_neg (by omega), show d + 1 - 1 = d by omega]
    congr 1
    simp
    omega

theorem scanDumpsElems (xs : List Json) (rest : List Char) (d : ℤ) (i : ℕ) (hd : 1 ≤ d) :
    findJsonEnd (dumpsElems xs ++ rest) false false d i =
      findJsonEnd rest false false d (i + (dumpsElems xs).length) := by
  match xs with
  | [] => simp [dumpsElems]
  | [x] =>
    rw [show dumpsElems [x] = dumpsVal x from rfl]
    exact scanDumpsVal x rest d i hd
  | x :: y :: tail =>
    rw [show dumpsElems (x :: y :: tail) = dumpsVal x ++ (',' :: ' ' :: dumpsElems (y :: tail))
      from rfl]
    rw [List.append_assoc, scanDumpsVal x _ d i hd, List.cons_append, List.cons_append,
      findJsonEnd_step_plain ',' _ _ _ (by decide) (by decide) (by decide),
      findJsonEnd_step_plain ' ' _ _ _ (by decide) (by decide) (by decide),
      scanDumpsElems (y :: tail) rest d _ hd]
    congr 1
    simp
    omega

theorem scanDumpsMembers (kvs : List (List Char × Json)) (rest : List Char) (d : ℤ) (i : ℕ)
    (hd : 1 ≤ d) :
    findJsonEnd (dumpsMembers kvs ++ rest) false false d i =
      findJsonEnd rest false false d (i + (dumpsMembers kvs).length) := by
  match kvs with
  | [] => simp [dumpsMembers]
  | [(k, v)] =>
    rw [show dumpsMembers [(k, v)] = escString k ++ (':' :: ' ' :: dumpsVal v) from rfl]
    rw [List.append_assoc, findJsonEnd_escString, List.cons_append, List.cons_append,
      findJsonEnd_step_plain ':' _ _ _ (by decide) (by decide) (by decide),
      findJsonEnd_step_plain ' ' _ _ _ (by decide) (by decide) (by decide),
      scanDumpsVal v rest d _ hd]
    congr 1
    simp
    omega
  | (k, v) :: m :: tail =>
    rw [show dumpsMembers ((k, v) :: m :: tail) =
      escString k ++ (':' :: ' ' :: dumpsVal v) ++ (',' :: ' ' :: dumpsMembers (m :: tail))
      from rfl]
    rw [List.append_assoc, List.append_assoc, findJsonEnd_escString, List.cons_append,
      List.cons_append,
      findJsonEnd_step_plain ':' _ _ _ (by decide) (by decide) (by decide),
      findJsonEnd_step_plain ' ' _ _ _ (by decide) (by decide) (by decide),
      scanDumpsVal v _ d _ hd, List.cons_append, List.cons_append,
      findJsonEnd_step_plain ',' _ _ _ (by decide) (by decide) (by decide),
      findJsonEnd_step_plain ' ' _ _ _ (by decide) (by decide) (by decide),
      scanDumpsMembers (m :: tail) rest d _ hd]
    congr 1
    simp
    omega

end

theorem findIdx_brace_append (pfx tail : List Char) (i : ℕ) (h : '{' ∉ pfx) :
    (pfx ++ ('{' :: tail)).findIdx? (fun c => c == '{') i = some (i + pfx.length) := by
  induction pfx generalizing i with
  | nil => simp
  | cons c cs ih =>
    rw [List.mem_cons, not_or] at h
    have hc : (c == '{') = false := by
      simpa using fun hEq => h.1 hEq.symm
    rw [List.cons_append, List.findIdx?_cons, hc, if_neg (by simp), ih (i + 1) h.2]
    congr 1
    simp
    omega

theorem findJsonEnd_dumps_obj (kvs : List (List Char × Json)) (sfx : List Char) :
    findJsonEnd (dumpsVal (Json.obj kvs) ++ sfx) false false 0 0 =
      some (dumpsVal (Json.obj kvs)).length := by
  rw [show dumpsVal (Json.obj kvs) = '{' :: (dumpsMembers kvs ++ ['}']) from rfl]
  rw [show ('{' :: (dumpsMembers kvs ++ ['}'])) ++ sfx =
    '{' :: (dumpsMembers kvs ++ ('}' :: sfx)) by simp]
  rw [findJsonEnd_step_open, scanDumpsMembers kvs ('}' :: sfx) (0 + 1) (0 + 1) (by omega),
    findJsonEnd_step_close, if_pos (by omega : (0 : ℤ) + 1 - 1 = 0)]
  congr 1
  simp
  omega

theorem extractCandidate_dumps (kvs : List (List Char × Json)) (pfx sfx : List Char)
    (h : '{' ∉ pfx) :
    extractCandidate (pfx ++ dumpsVal (Json.obj kvs) ++ sfx) =
      some (dumpsVal (Json.obj kvs)) := by
  have hobj : dumpsVal (Json.obj kvs) = '{' :: (dumpsMembers kvs ++ ['}']) := rfl
  have hne : (pfx ++ dumpsVal (Json.obj kvs) ++ sfx).isEmpty = false := by
    rw [hobj]
    simp
  have hidx : (pfx ++ dumpsVal (Json.obj kvs) ++ sfx).findIdx? (fun c => c == '{') =
      some pfx.length := by
    rw [show pfx ++ dumpsVal (Json.obj kvs) ++ sfx =
      pfx ++ ('{' :: (dumpsMembers kvs ++ ('}' :: sfx))) by rw [hobj]; simp]
    rw [findIdx_brace_append pfx _ 0 h]
    norm_num
  have hdrop : (pfx ++ dumpsVal (Json.obj kvs) ++ sfx).drop pfx.length =
      dumpsVal (Json.obj kvs) ++ sfx := by
    rw [List.append_assoc]
    exact List.drop_left pfx _
  have hlen : 0 < (dumpsVal (Json.obj kvs)).length := by
    rw [hobj]
    simp
  simp only [extractCandidate, hne, hidx, hdrop, findJsonEnd_dumps_obj kvs sfx, hlen,
    Bool.false_eq_true, if_false, if_true, List.take_left]

/-! Reading back what dumps wrote. -/

theorem skipWs_cons_of_not_ws (c : Char) (cs : List Char) (h : isWsChar c = false) :
    skipWs (c :: cs) = c :: cs := by
  simp [skipWs, h]

theorem digitChar10_toNat (d : ℕ) : (digitChar10 d).toNat = 48 + d % 10 := by
  have h : d % 10 < 10 := Nat.mod_lt _ (by norm_num)
  unfold digitChar10
  generalize hk : d % 10 = k at h ⊢
  interval_cases k <;> exact (by decide)

theorem digitChar10_isDigit (d : ℕ) : (digitChar10 d).isDigit = true := by
  have h : d % 10 < 10 := Nat.mod_lt _ (by norm_num)
  unfold digitChar10
  generalize hk : d % 10 = k at h ⊢
  interval_cases k <;> exact (by decide)

theorem natToChars_all_digits (m : ℕ) : ∀ c ∈ natToChars m, c.isDigit = true := by
  intro c hc
  obtain ⟨d, rfl⟩ := natToChars_chars m c hc
  exact digitChar10_isDigit d

theorem parseDigitsVal_natToChars (m : ℕ) : parseDigitsVal (natToChars m) = m := by
  induction m using Nat.strong_induction_on with
  | _ m ih =>
    rw [natToChars]
    by_cases h : m < 10
    · simp only [if_pos h, parseDigitsVal, List.foldl_cons, List.foldl_nil]
      rw [digitChar10_toNat]
      omega
    · simp only [if_neg h, parseDigitsVal, List.foldl_append, List.foldl_cons, List.foldl_nil]
      have := ih (m / 10) (Nat.div_lt_self (by omega) (by omega))
      rw [parseDigitsVal] at this
      rw [this, digitChar10_toNat]
      omega

theorem takeWhile_digits_append (ds rest : List Char) (hds : ∀ c ∈ ds, c.isDigit = true)
    (hrest : ∀ c, rest.head? = some c → c.isDigit = false) :
    (ds ++ rest).takeWhile (fun d => d.isDigit) = ds := by
  induction ds with
  | nil =>
    cases rest with
    | nil => rfl
    | cons r t =>
      simp only [List.nil_append, List.takeWhile_cons, hrest r rfl]
      simp
  | cons c cs ih =>
    simp only [List.cons_append, List.takeWhile_cons, hds c (by simp)]
    rw [ih (fun c hc => hds c (List.mem_cons_of_mem _ hc))]
    simp

theorem dropWhile_digits_append (ds rest : List Char) (hds : ∀ c ∈ ds, c.isDigit = true)
    (hrest : ∀ c, rest.head? = some c → c.isDigit = false) :
    (ds ++ rest).dropWhile (fun d => d.isDigit) = rest := by
  induction ds with
  | nil =>
    cases rest with
    | nil => rfl
    | cons r t =>
      simp only [List.nil_append, List.dropWhile_cons, hrest r rfl]
      simp
  | cons c cs ih =>
    simp only [List.cons_append, List.dropWhile_cons, hds c (by simp)]
    exact ih (fun c hc => hds c (List.mem_cons_of_mem _ hc))

theorem span_digits_append (ds rest : List Char) (hds : ∀ c ∈ ds, c.isDigit = true)
    (hrest : ∀ c, rest.head? = some c → c.isDigit = false) :
    (ds ++ rest).span (fun d => d.isDigit) = (ds, rest) := by
  rw [List.span_eq_take_drop, takeWhile_digits_append ds rest hds hrest,
    dropWhile_digits_append ds rest hds hrest]

theorem char_valid_ranges (c : Char) :
    c.toNat < 55296 ∨ (57343 < c.toNat ∧ c.toNat < 1114112) := c.valid

theorem parseU16_hex4 (n : ℕ) (tail : List Char) :
    parseU16 (hex4 n ++ tail) =
      some ((n / 4096) % 16 * 4096 + (n / 256) % 16 * 256 + (n / 16) % 16 * 16 + n % 16,
        tail) := by
  obtain ⟨-, -, hv1⟩ := nibbleChar_facts (n / 4096)
  obtain ⟨-, -, hv2⟩ := nibbleChar_facts (n / 256)
  obtain ⟨-, -, hv3⟩ := nibbleChar_facts (n / 16)
  obtain ⟨-, -, hv4⟩ := nibbleChar_facts n
  simp [hex4, parseU16, hv1, hv2, hv3, hv4]

theorem parseU16_hex4_small (n : ℕ) (hn : n < 65536) (tail : List Char) :
    parseU16 (hex4 n ++ tail) = some (n, tail) := by
  rw [parseU16_hex4 n tail]
  congr 1
  congr 1
  omega

theorem readUEscape_eq_aux (s : List Char) (n : ℕ) (rest : List Char)
    (h : parseU16 s = some (n, rest)) : readUEscape s = readUEscapeAux n rest := by
  rw [readUEscape, h]

theorem readUEscapePair_eq (n : ℕ) (more : List Char) (m : ℕ) (rest2 : List Char)
    (h : parseU16 more = some (m, rest2)) :
    readUEscapePair n more =
      if 56320 ≤ m ∧ m < 57344 then
        Except.ok (Char.ofNat (65536 + (n - 55296) * 1024 + (m - 56320)), rest2)
      else Except.error "Unpaired surrogate" := by
  rw [readUEscapePair, h]

theorem readUEscape_hex4_bmp (n : ℕ) (hn : n < 65536)
    (h1 : ¬ (55296 ≤ n ∧ n < 56320)) (h2 : ¬ (56320 ≤ n ∧ n < 57344)) (tail : List Char) :
    readUEscape (hex4 n ++ tail) = Except.ok (Char.ofNat n, tail) := by
  rw [readUEscape_eq_aux _ _ _ (parseU16_hex4_small n hn tail), readUEscapeAux,
    if_neg h1, if_neg h2]

theorem readUEscape_surrogate (n : ℕ) (h1 : 65536 ≤ n) (h2 : n < 1114112)
    (tail : List Char) :
    readUEscape (hex4 (55296 + (n - 65536) / 1024) ++
      ('\\' :: 'u' :: (hex4 (56320 + (n - 65536) % 1024) ++ tail))) =
      Except.ok (Char.ofNat n, tail) := by
  have hHi := parseU16_hex4_small (55296 + (n - 65536) / 1024) (by omega)
    ('\\' :: 'u' :: (hex4 (56320 + (n - 65536) % 1024) ++ tail))
  have hLo := parseU16_hex4_small (56320 + (n - 65536) % 1024) (by omega) tail
  rw [readUEscape_eq_aux _ _ _ hHi, readUEscapeAux, if_pos (by omega)]
  show (if ('\\' : Char) = '\\' ∧ ('u' : Char) = 'u' then
      readUEscapePair (55296 + (n - 65536) / 1024)
        (hex4 (56320 + (n - 65536) % 1024) ++ tail)
    else Except.error "Unpaired surrogate") = _
  rw [if_pos ⟨rfl, rfl⟩, readUEscapePair_eq _ _ _ _ hLo, if_pos (by omega)]
  have heq : 65536 + (55296 + (n - 65536) / 1024 - 55296) * 1024 +
      (56320 + (n - 65536) % 1024 - 56320) = n := by
    omega
  rw [heq]

theorem parseStringBody_uescape (fuel : ℕ) (rest2 : List Char) (ch : Char)
    (rest3 : List Char) (h : readUEscape rest2 = Except.ok (ch, rest3)) :
    parseStringBody (fuel + 1) ('\\' :: 'u' :: rest2) =
      (match parseStringBody fuel rest3 with
       | Except.ok (t, r) => Except.ok (ch :: t, r)
       | Except.error err => Except.error err) := by
  show (match readUEscape rest2 with
        | Except.ok (ch2, rest4) =>
          match parseStringBody fuel rest4 with
          | Except.ok (t, r) => Except.ok (ch2 :: t, r)
          | Except.error err => Except.error err
        | Except.error err => Except.error err) = _
  rw [h]

theorem parseStringBody_escChar (c : Char) (tail : List Char) (fuel : ℕ) :
    parseStringBody (fuel + 1) (escChar c ++ tail) =
      (match parseStringBody fuel tail with
       | Except.ok (t, r) => Except.ok (c :: t, r)
       | Except.error err => Except.error err) := by
  unfold escChar
  split_ifs with h1 h2 h3 h4 h5 h6 h7 h8 h9
  · subst h1
    rfl
  · subst h2
    rfl
  · subst h3
    rfl
  · subst h4
    rfl
  · subst h5
    rfl
  · have hc : c = Char.ofNat 8 := by
      rw [← Char.ofNat_toNat c, h6]
    rw [hc]
    rfl
  · have hc : c = Char.ofNat 12 := by
      rw [← Char.ofNat_toNat c, h7]
    rw [hc]
    rfl
  · -- basic multilingual plane escape
    have hval := char_valid_ranges c
    have hre := readUEscape_hex4_bmp c.toNat h9 (by omega) (by omega) tail
    rw [show ('\\' :: 'u' :: hex4 c.toNat) ++ tail = '\\' :: 'u' :: (hex4 c.toNat ++ tail)
      by simp]
    rw [parseStringBody_uescape fuel _ _ _ hre, Char.ofNat_toNat]
  · -- surrogate pair escape
    have hval := char_valid_ranges c
    have hre := readUEscape_surrogate c.toNat (by omega) (by omega) tail
    rw [show (('\\' :: 'u' :: hex4 (55296 + (c.toNat - 65536) / 1024)) ++
        ('\\' :: 'u' :: hex4 (56320 + (c.toNat - 65536) % 1024))) ++ tail =
      '\\' :: 'u' :: (hex4 (55296 + (c.toNat - 65536) / 1024) ++
        ('\\' :: 'u' :: (hex4 (56320 + (c.toNat - 65536) % 1024) ++ tail))) by simp]
    rw [parseStringBody_uescape fuel _ _ _ hre, Char.ofNat_toNat]
  · -- printable character kept verbatim
    have hge : ¬ c.toNat < 32 := by
      push_neg at h8
      omega
    simp only [List.singleton_append]
    simp [parseStringBody, h1, h2, hge]

theorem escChar_length_pos (c : Char) : 1 ≤ (escChar c).length := by
  unfold escChar
  split_ifs <;> simp [hex4]

theorem parseStringBody_escaped (s rest : List Char) (fuel : ℕ)
    (hfuel : (s.flatMap escChar).length < fuel) :
    parseStringBody fuel (s.flatMap escChar ++ ('"' :: rest)) = Except.ok (s, rest) := by
  induction s generalizing fuel with
  | nil =>
    match fuel, hfuel with
    | f + 1, _ =>
      simp only [List.flatMap_nil, List.nil_append]
      rfl
  | cons c cs ih =>
    match fuel, hfuel with
    | f + 1, hfuel =>
      have h1 := escChar_length_pos c
      have hlen : (escChar c).length + (cs.flatMap escChar).length < f + 1 := by
        have h2 : ((c :: cs).flatMap escChar).length =
            (escChar c).length + (cs.flatMap escChar).length := by
          simp
        omega
      rw [List.flatMap_cons, List.append_assoc, parseStringBody_escChar c _ f,
        ih f (by omega)]

theorem digit_ne (c : Char) (h : c.isDigit = true) :
    c ≠ '{' ∧ c ≠ '[' ∧ c ≠ '"' ∧ c ≠ 't' ∧ c ≠ 'f' ∧ c ≠ 'n' ∧ c ≠ '-' ∧
    isWsChar c = false := by
  refine ⟨?_, ?_, ?_, ?_, ?_, ?_, ?_, ?_⟩
  any_goals rintro rfl; exact absurd h (by decide)
  cases hw : isWsChar c
  · rfl
  · exfalso
    simp only [isWsChar, Bool.or_eq_true, beq_iff_eq] at hw
    rcases hw with (rfl | rfl) | (rfl | rfl) <;> exact absurd h (by decide)

theorem parseValue_cons (f : ℕ) (c : Char) (t : List Char) (h : isWsChar c = false) :
    parseValue (f + 1) (c :: t) = parseValueCore (f + 1) c t := by
  rw [parseValue, skipWs_cons_of_not_ws c t h]

theorem parseValue_ws_skip (f : ℕ) (s : List Char) :
    parseValue f (' ' :: s) = parseValue f s := by
  cases f with
  | zero =>
    rw [parseValue, parseValue]
  | succ f =>
    rw [parseValue, parseValue]
    rfl

theorem parseElems_ws_skip (f : ℕ) (acc : List Json) (s : List Char) :
    parseElems f acc (' ' :: s) = parseElems f acc s := by
  cases f with
  | zero =>
    rw [parseElems, parseElems]
  | succ f =>
    rw [parseElems, parseElems, parseValue_ws_skip]

theorem parseMembers_ws_skip (f : ℕ) (acc : List (List Char × Json)) (s : List Char) :
    parseMembers f acc (' ' :: s) = parseMembers f acc s := by
  cases f with
  | zero =>
    rw [parseMembers, parseMembers]
  | succ f =>
    rw [parseMembers, parseMembers]
    rfl

theorem parseValueCore_brace (f : ℕ) (t : List Char) :
    parseValueCore (f + 1) '{' t = parseObjStart f t := by
  rw [parseValueCore, if_pos rfl]

theorem parseValueCore_bracket (f : ℕ) (t : List Char) :
    parseValueCore (f + 1) '[' t = parseArrStart f t := by
  rw [parseValueCore, if_neg (by decide), if_pos rfl]

theorem parseValueCore_quote (f : ℕ) (t : List Char) :
    parseValueCore (f + 1) '"' t = parseStrLit t := by
  rw [parseValueCore, if_neg (by decide), if_neg (by decide), if_pos rfl]

theorem parseValueCore_true (f : ℕ) (t : List Char) :
    parseValueCore (f + 1) 't' ('r' :: 'u' :: 'e' :: t) = Except.ok (Json.bool true, t) := by
  rw [parseValueCore, if_neg (by decide), if_neg (by decide), if_neg (by decide), if_pos rfl]
  rfl

theorem parseValueCore_false (f : ℕ) (t : List Char) :
    parseValueCore (f + 1) 'f' ('a' :: 'l' :: 's' :: 'e' :: t) =
      Except.ok (Json.bool false, t) := by
  rw [parseValueCore, if_neg (by decide), if_neg (by decide), if_neg (by decide),
    if_neg (by decide), if_pos rfl]
  rfl

theorem parseValueCore_null (f : ℕ) (t : List Char) :
    parseValueCore (f + 1) 'n' ('u' :: 'l' :: 'l' :: t) = Except.ok (Json.null, t) := by
  rw [parseValueCore, if_neg (by decide), if_neg (by decide), if_neg (by decide),
    if_neg (by decide), if_neg (by decide), if_pos rfl]
  rfl

theorem parseValueCore_neg (f : ℕ) (t : List Char) :
    parseValueCore (f + 1) '-' t = parseNumNeg t := by
  rw [parseValueCore, if_neg (by decide), if_neg (by decide), if_neg (by decide),
    if_neg (by decide), if_neg (by decide), if_neg (by decide), if_pos rfl]

theorem parseValueCore_digit (f : ℕ) (c : Char) (t : List Char) (h : c.isDigit = true) :
    parseValueCore (f + 1) c t = parseNumLit c t := by
  obtain ⟨h1, h2, h3, h4, h5, h6, h7, h8⟩ := digit_ne c h
  rw [parseValueCore, if_neg h1, if_neg h2, if_neg h3, if_neg h4, if_neg h5, if_neg h6,
    if_neg h7, if_pos h]

theorem parseValueCore_obj_empty (f : ℕ) (t : List Char) :
    parseValueCore (f + 1) '{' ('}' :: t) = Except.ok (Json.obj [], t) := by
  rw [parseValueCore_brace, parseObjStart, skipWs_cons_of_not_ws _ _ (by decide)]
  rfl

theorem parseValueCore_arr_empty (f : ℕ) (t : List Char) :
    parseValueCore (f + 1) '[' (']' :: t) = Except.ok (Json.arr [], t) := by
  rw [parseValueCore_bracket, parseArrStart, skipWs_cons_of_not_ws _ _ (by decide)]
  rfl

theorem digit_ne_close (c : Char) (h : c.isDigit = true) : c ≠ ']' ∧ c ≠ '}' := by
  constructor <;> rintro rfl <;> exact absurd h (by decide)

theorem head_cons_not_digit (d : Char) (r : List Char) (hd : d.isDigit = false) :
    ∀ c, (d :: r).head? = some c → c.isDigit = false := by
  intro c hc
  simp only [List.head?_cons, Option.some.injEq] at hc
  rw [← hc]
  exact hd

theorem parseStrLit_escaped (s rest : List Char) :
    parseStrLit (s.flatMap escChar ++ ('"' :: rest)) = Except.ok (Json.str s, rest) := by
  rw [parseStrLit, parseStringBody_escaped s rest _
    (by simp only [List.length_append, List.length_cons]; omega)]

theorem parseElems_ok (f : ℕ) (acc : List Json) (s : List Char) (v : Json) (r : List Char)
    (h : parseValue f s = Except.ok (v, r)) :
    parseElems (f + 1) acc s = parseElemSep f acc v r := by
  rw [parseElems, h]

theorem parseElemSep_comma (f : ℕ) (acc : List Json) (v : Json) (r2 : List Char) :
    parseElemSep f acc v (',' :: r2) = parseElems f (acc ++ [v]) r2 := by
  rw [parseElemSep, skipWs_cons_of_not_ws _ _ (by decide)]
  rfl

theorem parseElemSep_close (f : ℕ) (acc : List Json) (v : Json) (r2 : List Char) :
    parseElemSep f acc v (']' :: r2) = Except.ok (Json.arr (acc ++ [v]), r2) := by
  rw [parseElemSep, skipWs_cons_of_not_ws _ _ (by decide)]
  rfl

theorem parseMembers_quote (f : ℕ) (acc : List (List Char × Json)) (r1 : List Char) :
    parseMembers (f + 1) acc ('"' :: r1) = parseMemberKey f acc r1 := by
  rw [parseMembers, skipWs_cons_of_not_ws _ _ (by decide)]
  rfl

theorem parseMemberKey_escaped (f : ℕ) (acc : List (List Char × Json)) (k rest : List Char) :
    parseMemberKey f acc (k.flatMap escChar ++ ('"' :: rest)) =
      parseMemberColon f acc k rest := by
  rw [parseMemberKey, parseStringBody_escaped k rest _
    (by simp only [List.length_append, List.length_cons]; omega)]

theorem parseMemberColon_colon (f : ℕ) (acc : List (List Char × Json)) (k r2 : List Char) :
    parseMemberColon f acc k (':' :: r2) = parseMemberValue f acc k r2 := by
  rw [parseMemberColon, skipWs_cons_of_not_ws _ _ (by decide)]
  rfl

theorem parseMemberValue_ok (f : ℕ) (acc : List (List Char × Json)) (k r2 : List Char)
    (v : Json) (r3 : List Char) (h : parseValue f r2 = Except.ok (v, r3)) :
    parseMemberValue f acc k r2 = parseMemberSep f acc k v r3 := by
  rw [parseMemberValue, h]

theorem parseMemberSep_comma (f : ℕ) (acc : List (List Char × Json)) (k : List Char)
    (v : Json) (r4 : List Char) :
    parseMemberSep f acc k v (',' :: r4) = parseMembers f (acc ++ [(k, v)]) r4 := by
  rw [parseMemberSep, skipWs_cons_of_not_ws _ _ (by decide)]
  rfl

theorem parseMemberSep_close (f : ℕ) (acc : List (List Char × Json)) (k : List Char)
    (v : Json) (r4 : List Char) :
    parseMemberSep f acc k v ('}' :: r4) = Except.ok (Json.obj (acc ++ [(k, v)]), r4) := by
  rw [parseMemberSep, skipWs_cons_of_not_ws _ _ (by decide)]
  rfl

theorem parseArrStart_nonclose (f : ℕ) (c0 : Char) (t : List Char)
    (hws : isWsChar c0 = false) (hnb : c0 ≠ ']') :
    parseArrStart f (c0 :: t) = parseElems f [] (c0 :: t) := by
  rw [parseArrStart, skipWs_cons_of_not_ws _ _ hws]
  split
  · next rest2 heq =>
    injection heq with h1 h2
    exact absurd h1 hnb
  · rfl

theorem parseObjStart_nonclose (f : ℕ) (c0 : Char) (t : List Char)
    (hws : isWsChar c0 = false) (hnb : c0 ≠ '}') :
    parseObjStart f (c0 :: t) = parseMembers f [] (c0 :: t) := by
  rw [parseObjStart, skipWs_cons_of_not_ws _ _ hws]
  split
  · next rest2 heq =>
    injection heq with h1 h2
    exact absurd h1 hnb
  · rfl

theorem dumpsVal_head (v : Json) :
    ∃ c cs, dumpsVal v = c :: cs ∧ isWsChar c = false ∧ c ≠ ']' ∧ c ≠ '}' := by
  cases v with
  | null => exact ⟨'n', _, rfl, rfl, by decide, by decide⟩
  | bool b =>
    cases b with
    | false => exact ⟨'f', _, rfl, rfl, by decide, by decide⟩
    | true => exact ⟨'t', _, rfl, rfl, by decide, by decide⟩
  | num n =>
    rw [show dumpsVal (Json.num n) = intToChars n from rfl, intToChars]
    by_cases hn : n < 0
    · rw [if_pos hn]
      exact ⟨'-', _, rfl, by decide, by decide, by decide⟩
    · rw [if_neg hn]
      obtain ⟨c0, cs0, hdec⟩ := List.exists_cons_of_ne_nil (natToChars_ne_nil n.toNat)
      have hc0 : c0.isDigit = true :=
        natToChars_all_digits _ c0 (by rw [hdec]; exact List.mem_cons_self _ _)
      obtain ⟨-, -, -, -, -, -, -, hws⟩ := digit_ne c0 hc0
      obtain ⟨h1, h2⟩ := digit_ne_close c0 hc0
      exact ⟨c0, cs0, hdec, hws, h1, h2⟩
  | str s => exact ⟨'"', _, rfl, rfl, by decide, by decide⟩
  | arr xs => exact ⟨'[', _, rfl, rfl, by decide, by decide⟩
  | obj kvs => exact ⟨'{', _, rfl, rfl, by decide, by decide⟩

mutual

theorem parseValue_dumps (v : Json) (rest : List Char) (fuel : ℕ)
    (hfuel : (dumpsVal v).length < fuel)
    (hrest : ∀ c, rest.head? = some c → c.isDigit = false) :
    parseValue fuel (dumpsVal v ++ rest) = Except.ok (v, rest) := by
  match fuel, hfuel with
  | f + 1, hfuel =>
    cases v with
    | null =>
      rw [show dumpsVal Json.null ++ rest = 'n' :: 'u' :: 'l' :: 'l' :: rest from rfl,
        parseValue_cons f 'n' _ (by decide), parseValueCore_null]
    | bool b =>
      cases b with
      | false =>
        rw [show dumpsVal (Json.bool false) ++ rest = 'f' :: 'a' :: 'l' :: 's' :: 'e' :: rest
            from rfl,
          parseValue_cons f 'f' _ (by decide), parseValueCore_false]
      | true =>
        rw [show dumpsVal (Json.bool true) ++ rest = 't' :: 'r' :: 'u' :: 'e' :: rest
            from rfl,
          parseValue_cons f 't' _ (by decide), parseValueCore_true]
    | num n =>
      by_cases hn : n < 0
      · rw [show dumpsVal (Json.num n) = intToChars n from rfl, intToChars, if_pos hn,
          List.cons_append, parseValue_cons f '-' _ (by decide), parseValueCore_neg,
          parseNumNeg, span_digits_append _ _ (natToChars_all_digits _) hrest]
        obtain ⟨c0, cs0, hdec⟩ := List.exists_cons_of_ne_nil (natToChars_ne_nil n.natAbs)
        rw [hdec]
        show Except.ok (Json.num (-(parseDigitsVal (c0 :: cs0) : ℤ)), rest) =
          Except.ok (Json.num n, rest)
        rw [← hdec, parseDigitsVal_natToChars]
        have hval : -((n.natAbs : ℤ)) = n := by omega
        rw [hval]
      · rw [show dumpsVal (Json.num n) = intToChars n from rfl, intToChars, if_neg hn]
        obtain ⟨c0, cs0, hdec⟩ := List.exists_cons_of_ne_nil (natToChars_ne_nil n.toNat)
        have hc0 : c0.isDigit = true :=
          natToChars_all_digits _ c0 (by rw [hdec]; exact List.mem_cons_self _ _)
        obtain ⟨-, -, -, -, -, -, -, hws⟩ := digit_ne c0 hc0
        rw [hdec, List.cons_append, parseValue_cons f c0 _ hws,
          parseValueCore_digit f c0 _ hc0, parseNumLit,
          show c0 :: (cs0 ++ rest) = (c0 :: cs0) ++ rest from rfl, ← hdec,
          span_digits_append _ _ (natToChars_all_digits _) hrest]
        show Except.ok (Json.num ((parseDigitsVal (natToChars n.toNat) : ℤ)), rest) =
          Except.ok (Json.num n, rest)
        rw [parseDigitsVal_natToChars]
        have hval : ((n.toNat : ℤ)) = n := by omega
        rw [hval]
    | str s =>
      have hshape : dumpsVal (Json.str s) ++ rest =
          '"' :: (s.flatMap escChar ++ ('"' :: rest)) := by
        rw [show dumpsVal (Json.str s) = '"' :: (s.flatMap escChar ++ ['"']) from rfl]
        simp
      rw [hshape, parseValue_cons f '"' _ (by decide), parseValueCore_quote,
        parseStrLit_escaped]
    | arr xs =>
      cases xs with
      | nil =>
        rw [show dumpsVal (Json.arr []) ++ rest = '[' :: ']' :: rest from rfl,
          parseValue_cons f '[' _ (by decide), parseValueCore_arr_empty]
      | cons y ys =>
        obtain ⟨c0, cs0, hdec, hws, hnb, hnb2⟩ := dumpsVal_head y
        have hlen : (dumpsVal (Json.arr (y :: ys))).length =
            (dumpsElems (y :: ys)).length + 2 := by
          rw [show dumpsVal (Json.arr (y :: ys)) =
            '[' :: (dumpsElems (y :: ys) ++ [']']) from rfl]
          simp
        have hshape : dumpsVal (Json.arr (y :: ys)) ++ rest =
            '[' :: (dumpsElems (y :: ys) ++ (']' :: rest)) := by
          rw [show dumpsVal (Json.arr (y :: ys)) =
            '[' :: (dumpsElems (y :: ys) ++ [']']) from rfl]
          simp
        obtain ⟨T, hT⟩ : ∃ T, dumpsElems (y :: ys) = dumpsVal y ++ T := by
          cases ys with
          | nil => exact ⟨[], by rw [show dumpsElems [y] = dumpsVal y from rfl]; simp⟩
          | cons z zs => exact ⟨',' :: ' ' :: dumpsElems (z :: zs), rfl⟩
        have hshape2 : dumpsElems (y :: ys) ++ (']' :: rest) =
            c0 :: (cs0 ++ (T ++ (']' :: rest))) := by
          rw [hT, hdec]
          simp
        rw [hshape, parseValue_cons f '[' _ (by decide), parseValueCore_bracket, hshape2,
          parseArrStart_nonclose f c0 _ hws hnb, ← hshape2,
          parseElems_dumps y ys [] rest f (by omega)]
        simp
    | obj kvs =>
      cases kvs with
      | nil =>
        rw [show dumpsVal (Json.obj []) ++ rest = '{' :: '}' :: rest from rfl,
          parseValue_cons f '{' _ (by decide), parseValueCore_obj_empty]
      | cons kv kvs2 =>
        have hlen : (dumpsVal (Json.obj (kv :: kvs2))).length =
            (dumpsMembers (kv :: kvs2)).length + 2 := by
          rw [show dumpsVal (Json.obj (kv :: kvs2)) =
            '{' :: (dumpsMembers (kv :: kvs2) ++ ['}']) from rfl]
          simp
        have hshape : dumpsVal (Json.obj (kv :: kvs2)) ++ rest =
            '{' :: (dumpsMembers (kv :: kvs2) ++ ('}' :: rest)) := by
          rw [show dumpsVal (Json.obj (kv :: kvs2)) =
            '{' :: (dumpsMembers (kv :: kvs2) ++ ['}']) from rfl]
          simp
        obtain ⟨T, hT⟩ : ∃ T, dumpsMembers (kv :: kvs2) =
            '"' :: (kv.1.flatMap escChar ++ ('"' :: (':' :: ' ' :: (dumpsVal kv.2 ++ T)))) := by
          obtain ⟨k, w⟩ := kv
          cases kvs2 with
          | nil =>
            refine ⟨[], ?_⟩
            rw [show dumpsMembers [(k, w)] = escString k ++ (':' :: ' ' :: dumpsVal w)
              from rfl, escString]
            simp
          | cons m ms =>
            refine ⟨',' :: ' ' :: dumpsMembers (m :: ms), ?_⟩
            rw [show dumpsMembers ((k, w) :: m :: ms) =
              escString k ++ (':' :: ' ' :: dumpsVal w) ++
                (',' :: ' ' :: dumpsMembers (m :: ms)) from rfl, escString]
            simp
        have hshape2 : dumpsMembers (kv :: kvs2) ++ ('}' :: rest) =
            '"' :: ((kv.1.flatMap escChar ++ ('"' :: (':' :: ' ' :: (dumpsVal kv.2 ++ T)))) ++
              ('}' :: rest)) := by
          rw [hT]
          simp
        rw [hshape, parseValue_cons f '{' _ (by decide), parseValueCore_brace, hshape2,
          parseObjStart_nonclose f '"' _ (by decide) (by decide), ← hshape2,
          parseMembers_dumps kv kvs2 [] rest f (by omega)]
        simp
termination_by sizeOf v

theorem parseElems_dumps (x : Json) (xs : List Json) (acc : List Json) (rest : List Char)
    (fuel : ℕ) (hfuel : (dumpsElems (x :: xs)).length + 1 < fuel) :
    parseElems fuel acc (dumpsElems (x :: xs) ++ (']' :: rest)) =
      Except.ok (Json.arr (acc ++ (x :: xs)), rest) := by
  match fuel, hfuel with
  | f + 1, hfuel =>
    cases xs with
    | nil =>
      have h1 : dumpsElems [x] = dumpsVal x := rfl
      have hv : parseValue f (dumpsVal x ++ (']' :: rest)) = Except.ok (x, ']' :: rest) :=
        parseValue_dumps x (']' :: rest) f (by rw [h1] at hfuel; omega)
          (head_cons_not_digit ']' _ (by decide))
      rw [h1, parseElems_ok f acc _ x _ hv, parseElemSep_close]
    | cons y ys =>
      have h1 : dumpsElems (x :: y :: ys) =
          dumpsVal x ++ (',' :: ' ' :: dumpsElems (y :: ys)) := rfl
      have hlen1 : (dumpsElems (x :: y :: ys)).length =
          (dumpsVal x).length + ((dumpsElems (y :: ys)).length + 2) := by
        rw [h1]
        simp
      have hshape : dumpsElems (x :: y :: ys) ++ (']' :: rest) =
          dumpsVal x ++ (',' :: ' ' :: (dumpsElems (y :: ys) ++ (']' :: rest))) := by
        rw [h1]
        simp
      have hv : parseValue f
          (dumpsVal x ++ (',' :: ' ' :: (dumpsElems (y :: ys) ++ (']' :: rest)))) =
          Except.ok (x, ',' :: ' ' :: (dumpsElems (y :: ys) ++ (']' :: rest))) :=
        parseValue_dumps x _ f (by omega) (head_cons_not_digit ',' _ (by decide))
      rw [hshape, parseElems_ok f acc _ x _ hv, parseElemSep_comma, parseElems_ws_skip,
        parseElems_dumps y ys (acc ++ [x]) rest f (by omega)]
      rw [show (acc ++ [x]) ++ (y :: ys) = acc ++ (x :: y :: ys) by simp]
termination_by sizeOf (x :: xs)

theorem parseMembers_dumps (kv : List Char × Json) (kvs : List (List Char × Json))
    (acc : List (List Char × Json)) (rest : List Char) (fuel : ℕ)
    (hfuel : (dumpsMembers (kv :: kvs)).length + 1 < fuel) :
    parseMembers fuel acc (dumpsMembers (kv :: kvs) ++ ('}' :: rest)) =
      Except.ok (Json.obj (acc ++ (kv :: kvs)), rest) := by
  match fuel, hfuel with
  | f + 1, hfuel =>
    cases kvs with
    | nil =>
      have h1 : dumpsMembers [kv] = escString kv.1 ++ (':' :: ' ' :: dumpsVal kv.2) := rfl
      have hlen1 : (dumpsMembers [kv]).length =
          (kv.1.flatMap escChar).length + ((dumpsVal kv.2).length + 4) := by
        rw [h1, escString]
        simp
        omega
      have hshape : dumpsMembers [kv] ++ ('}' :: rest) =
          '"' :: (kv.1.flatMap escChar ++
            ('"' :: (':' :: ' ' :: (dumpsVal kv.2 ++ ('}' :: rest))))) := by
        rw [h1, escString]
        simp
      have hv : parseValue f (' ' :: (dumpsVal kv.2 ++ ('}' :: rest))) =
          Except.ok (kv.2, '}' :: rest) := by
        rw [parseValue_ws_skip]
        exact parseValue_dumps kv.2 _ f (by omega) (head_cons_not_digit '}' _ (by decide))
      rw [hshape, parseMembers_quote, parseMemberKey_escaped, parseMemberColon_colon,
        parseMemberValue_ok f acc kv.1 _ kv.2 _ hv, parseMemberSep_close]
    | cons m ms =>
      have h1 : dumpsMembers (kv :: m :: ms) =
          escString kv.1 ++ (':' :: ' ' :: dumpsVal kv.2) ++
            (',' :: ' ' :: dumpsMembers (m :: ms)) := rfl
      have hlen1 : (dumpsMembers (kv :: m :: ms)).length =
          (kv.1.flatMap escChar).length + (dumpsVal kv.2).length +
            ((dumpsMembers (m :: ms)).length + 6) := by
        rw [h1, escString]
        simp
        omega
      have hshape : dumpsMembers (kv :: m :: ms) ++ ('}' :: rest) =
          '"' :: (kv.1.flatMap escChar ++ ('"' :: (':' :: ' ' :: (dumpsVal kv.2 ++
            (',' :: ' ' :: (dumpsMembers (m :: ms) ++ ('}' :: rest))))))) := by
        rw [h1, escString]
        simp
      have hv : parseValue f (' ' :: (dumpsVal kv.2 ++
          (',' :: ' ' :: (dumpsMembers (m :: ms) ++ ('}' :: rest))))) =
          Except.ok (kv.2, ',' :: ' ' :: (dumpsMembers (m :: ms) ++ ('}' :: rest))) := by
        rw [parseValue_ws_skip]
        exact parseValue_dumps kv.2 _ f (by omega) (head_cons_not_digit ',' _ (by decide))
      rw [hshape, parseMembers_quote, parseMemberKey_escaped, parseMemberColon_colon,
        parseMemberValue_ok f acc kv.1 _ kv.2 _ hv, parseMemberSep_comma, parseMembers_ws_skip,
        parseMembers_dumps m ms (acc ++ [(kv.1, kv.2)]) rest f (by omega)]
      rw [show (acc ++ [(kv.1, kv.2)]) ++ (m :: ms) = acc ++ (kv :: m :: ms) by simp]
termination_by sizeOf (kv :: kvs)
decreasing_by
  all_goals simp_wf
  all_goals obtain ⟨k1, v1⟩ := kv
  all_goals try subst_vars
  all_goals try simp
  all_goals try omega

end

theorem parseJson_dumps (v : Json) : parseJson (dumpsVal v) = Except.ok v := by
  have h : parseValue ((dumpsVal v).length + 1) (dumpsVal v) = Except.ok (v, []) := by
    have h0 := parseValue_dumps v [] ((dumpsVal v).length + 1) (by omega)
      (by intro c hc; simp at hc)
    rw [List.append_nil] at h0
    exact h0
  rw [parseJson, h]
  rfl

theorem get_envelope_eq_circle (bbox : BoundBox)
    (h : |(bbox.xMax - bbox.xMin) * MM_TO_M - (bbox.yMax - bbox.yMin) * MM_TO_M| <
      1 / 10 * max ((bbox.xMax - bbox.xMin) * MM_TO_M) ((bbox.yMax - bbox.yMin) * MM_TO_M)) :
    get_envelope bbox =
      (Envelope.circle
        (pyRound3 (((bbox.xMax - bbox.xMin) * MM_TO_M + (bbox.yMax - bbox.yMin) * MM_TO_M) / 2)),
       pyRound3 ((bbox.zMax - bbox.zMin) * MM_TO_M)) := by
  simp only [get_envelope]
  rw [if_pos h]

theorem get_envelope_eq_rectangle (bbox : BoundBox)
    (h : ¬ (|(bbox.xMax - bbox.xMin) * MM_TO_M - (bbox.yMax - bbox.yMin) * MM_TO_M| <
      1 / 10 * max ((bbox.xMax - bbox.xMin) * MM_TO_M) ((bbox.yMax - bbox.yMin) * MM_TO_M))) :
    get_envelope bbox =
      (Envelope.rectangle (pyRound3 ((bbox.xMax - bbox.xMin) * MM_TO_M))
        (pyRound3 ((bbox.yMax - bbox.yMin) * MM_TO_M)),
       pyRound3 ((bbox.zMax - bbox.zMin) * MM_TO_M)) := by
  simp only [get_envelope]
  rw [if_neg h]

/-! Claim theorems for the placement and classification arithmetic. -/

/-- C4: for positive w and l the rectangle rotation-dimension swap returns
(l, w) exactly when rotation_deg is 90 or 270, and (w, l) unchanged for
every other rotation value. -/
theorem get_rect_dims_rotation_swap (w l rot : ℚ) (_hw : 0 < w) (_hl : 0 < l) :
    ((rot = 90 ∨ rot = 270) → get_rect_dims_at_rotation w l rot = (l, w)) ∧
    (rot ≠ 90 → rot ≠ 270 → get_rect_dims_at_rotation w l rot = (w, l)) := by
  constructor
  · intro h
    simp [get_rect_dims_at_rotation, h]
  · intro h1 h2
    simp [get_rect_dims_at_rotation, h1, h2]

theorem get_rect_dims_rotation_swap_witness :
    (((177 : ℚ) = 90 ∨ (177 : ℚ) = 270) → get_rect_dims_at_rotation 2 3 177 = (3, 2)) ∧
    ((177 : ℚ) ≠ 90 → (177 : ℚ) ≠ 270 → get_rect_dims_at_rotation 2 3 177 = (2, 3)) :=
  get_rect_dims_rotation_swap 2 3 177 (by norm_num) (by norm_num)

/-- C3: for a rectangle of stored dimensions W, L (mm) placed at centre
(Cx, Cy) metres with rotation deg in 0, 90, 180, 270 (q = deg / 90 quarter
turns), the corner computed by the import-path formula plus the rotated
half-extents reproduces the centre, exactly. -/
theorem center_corner_round_trip (W L Cx Cy z : ℚ) (deg : ℤ)
    (_hdeg : deg = 0 ∨ deg = 90 ∨ deg = 180 ∨ deg = 270) :
    (importBoxPlacement W L Cx Cy z (deg / 90)).base + rotZ (deg / 90) ⟨W / 2, L / 2, 0⟩ =
      ⟨Cx * M_TO_MM, Cy * M_TO_MM, z⟩ ∧
    ((importBoxPlacement W L Cx Cy z (deg / 90)).base +
        rotZ (deg / 90) ⟨W / 2, L / 2, 0⟩).x * MM_TO_M = Cx ∧
    ((importBoxPlacement W L Cx Cy z (deg / 90)).base +
        rotZ (deg / 90) ⟨W / 2, L / 2, 0⟩).y * MM_TO_M = Cy := by
  have key : ∀ q : ℤ,
      (importBoxPlacement W L Cx Cy z q).base + rotZ q ⟨W / 2, L / 2, 0⟩ =
        ⟨Cx * M_TO_MM, Cy * M_TO_MM, z⟩ := by
    intro q
    rw [importBoxPlacement_base, Vec3.sub_def, Vec3.add_def]
    simp only [Vec3.mk.injEq]
    refine ⟨by ring, by ring, by ring⟩
  refine ⟨key _, ?_, ?_⟩ <;> rw [key _] <;> simp [M_TO_MM, MM_TO_M]

theorem center_corner_round_trip_witness :
    ((90 : ℤ) = 0 ∨ (90 : ℤ) = 90 ∨ (90 : ℤ) = 180 ∨ (90 : ℤ) = 270) ∧
    ((importBoxPlacement 4000 2000 1 2 5 ((90 : ℤ) / 90)).base +
        rotZ ((90 : ℤ) / 90) ⟨4000 / 2, 2000 / 2, 0⟩ = ⟨1 * M_TO_MM, 2 * M_TO_MM, 5⟩) :=
  ⟨by norm_num, (center_corner_round_trip 4000 2000 1 2 5 90 (by norm_num)).1⟩

/-- C1 (counterexample): at stored swapped dimensions W = 2000 mm,
L = 1000 mm, target centre (0, 0), previous z = 0 and rotation 90 degrees
(q = 1 quarter turn), the apply_placements path does not produce the
placement demanded by the claim formula
center_world - R * center_local with rotation R applied: the formula gives
base (500, -1000, 0) with rotation 90, while apply_placements gives base
(-1000, -500, 0) with the identity rotation. -/
theorem apply_path_corner_counterexample :
    applyBoxPlacement 2000 1000 0 0 0 1 ≠ specCornerPlacement 2000 1000 0 0 0 1 ∧
    specCornerPlacement 2000 1000 0 0 0 1 = ⟨⟨500, -1000, 0⟩, 1⟩ ∧
    applyBoxPlacement 2000 1000 0 0 0 1 = ⟨⟨-1000, -500, 0⟩, 0⟩ := by
  refine ⟨?_, ?_, ?_⟩
  · intro h
    have hq := congrArg FcPlacement.rotQ h
    simp only [applyBoxPlacement, specCornerPlacement] at hq
    exact absurd hq (by norm_num)
  · rw [FcPlacement.eq_fields]
    refine ⟨?_, rfl⟩
    show (⟨1000 * 0, 1000 * 0, 0⟩ : Vec3) - rotZ 1 ⟨2000 / 2, 1000 / 2, 0⟩ = ⟨500, -1000, 0⟩
    rw [rotZ_one, Vec3.sub_def, Vec3.eq_components]
    norm_num
  · rw [FcPlacement.eq_fields]
    refine ⟨?_, rfl⟩
    show (⟨0 * M_TO_MM - 2000 / 2, 0 * M_TO_MM - 1000 / 2, 0⟩ : Vec3) = ⟨-1000, -500, 0⟩
    rw [Vec3.eq_components]
    norm_num [M_TO_MM]

/-- C1 (amended): the placement path generated by import_sitefit_contract
sets the base to center_world - R * center_local and applies rotation R
about the vertical axis, exactly as the specification formula states,
while the apply_placements path instead sets the base to the unrotated
corner offset (1000 x - W / 2, 1000 y - L / 2, previous z) and applies the
identity rotation. -/
theorem placement_formula_per_path (W L x y z : ℚ) (q : ℤ) :
    importBoxPlacement W L x y z q = specCornerPlacement W L x y z q ∧
    applyBoxPlacement W L x y z q = ⟨⟨x * 1000 - W / 2, y * 1000 - L / 2, z⟩, 0⟩ := by
  constructor
  · rw [FcPlacement.eq_fields, importBoxPlacement_base, importBoxPlacement_rotQ]
    refine ⟨?_, rfl⟩
    show _ = (⟨1000 * x, 1000 * y, z⟩ : Vec3) - rotZ q ⟨W / 2, L / 2, 0⟩
    rw [Vec3.sub_def, Vec3.sub_def, Vec3.eq_components]
    refine ⟨?_, ?_, rfl⟩ <;> simp [M_TO_MM] <;> ring
  · rw [FcPlacement.eq_fields]
    refine ⟨?_, rfl⟩
    show (⟨x * M_TO_MM - W / 2, y * M_TO_MM - L / 2, z⟩ : Vec3) = _
    rw [Vec3.eq_components]
    refine ⟨?_, ?_, rfl⟩ <;> simp [M_TO_MM]

/-- C7 (counterexample): the bounding box with X extent 10000 mm and
Y extent 10001 mm classifies as a circle, but the stored diameter is the
rounded value 10.0, not the exact mean 10.0005 of width and length, so the
claim that the diameter equals the mean fails. -/
theorem get_envelope_mean_counterexample :
    get_envelope ⟨0, 10000, 0, 10001, 0, 5000⟩ = (Envelope.circle 10, 5) ∧
    (((10000 : ℚ) - 0) * MM_TO_M + ((10001 : ℚ) - 0) * MM_TO_M) / 2 ≠ 10 := by
  constructor
  · have h : |((10000 : ℚ) - 0) * MM_TO_M - ((10001 : ℚ) - 0) * MM_TO_M| <
        1 / 10 * max (((10000 : ℚ) - 0) * MM_TO_M) (((10001 : ℚ) - 0) * MM_TO_M) := by
      rw [abs_sub_comm, abs_of_nonneg (by norm_num [MM_TO_M]),
        max_eq_right (by norm_num [MM_TO_M])]
      norm_num [MM_TO_M]
    rw [get_envelope_eq_circle ⟨0, 10000, 0, 10001, 0, 5000⟩ h]
    have hd : pyRound3 ((((10000 : ℚ) - 0) * MM_TO_M + ((10001 : ℚ) - 0) * MM_TO_M) / 2) = 10 := by
      have hx : ((((10000 : ℚ) - 0) * MM_TO_M + ((10001 : ℚ) - 0) * MM_TO_M) / 2) * 1000 =
          20001 / 2 := by
        norm_num [MM_TO_M]
      rw [pyRound3, hx]
      have hf : Int.floor ((20001 : ℚ) / 2) = 10000 := by
        rw [Int.floor_eq_iff]
        norm_num
      rw [roundHalfEven]
      simp only [hf]
      norm_num
    have hh : pyRound3 (((5000 : ℚ) - 0) * MM_TO_M) = 5 := by
      have hx : (((5000 : ℚ) - 0) * MM_TO_M) * 1000 = 5000 := by norm_num [MM_TO_M]
      rw [pyRound3, hx]
      have hf : Int.floor ((5000 : ℚ)) = 5000 := by
        rw [Int.floor_eq_iff]
        norm_num
      rw [roundHalfEven]
      simp only [hf]
      norm_num
    rw [hd, hh]
  · norm_num [MM_TO_M]

/-- C7 (amended): the classifier converts the bounding-box extents to
metres, classifies as a circle exactly when the width and length differ by
less than 10 percent of the larger, and emits values rounded to three
decimals: the circle diameter is round3 of the mean of width and length,
the rectangle carries round3 of both dimensions, and the height is round3
of the converted Z extent.  In particular width 10.0 and length 10.05
classify as a circle of diameter 10.025, and width 10.0 and length 15.0
as a rectangle. -/
theorem get_envelope_classification (bbox : BoundBox) :
    (get_envelope bbox).2 = pyRound3 ((bbox.zMax - bbox.zMin) * MM_TO_M) ∧
    (|(bbox.xMax - bbox.xMin) * MM_TO_M - (bbox.yMax - bbox.yMin) * MM_TO_M| <
        1 / 10 * max ((bbox.xMax - bbox.xMin) * MM_TO_M) ((bbox.yMax - bbox.yMin) * MM_TO_M) →
      (get_envelope bbox).1 =
        Envelope.circle
          (pyRound3 (((bbox.xMax - bbox.xMin) * MM_TO_M + (bbox.yMax - bbox.yMin) * MM_TO_M) / 2))) ∧
    (¬ (|(bbox.xMax - bbox.xMin) * MM_TO_M - (bbox.yMax - bbox.yMin) * MM_TO_M| <
        1 / 10 * max ((bbox.xMax - bbox.xMin) * MM_TO_M) ((bbox.yMax - bbox.yMin) * MM_TO_M)) →
      (get_envelope bbox).1 =
        Envelope.rectangle (pyRound3 ((bbox.xMax - bbox.xMin) * MM_TO_M))
          (pyRound3 ((bbox.yMax - bbox.yMin) * MM_TO_M))) ∧
    get_envelope ⟨0, 10000, 0, 10050, 0, 5000⟩ = (Envelope.circle 10.025, 5) ∧
    get_envelope ⟨0, 10000, 0, 15000, 0, 5000⟩ = (Envelope.rectangle 10 15, 5) := by
  refine ⟨?_, ?_, ?_, ?_, ?_⟩
  · simp only [get_envelope]
    split <;> rfl
  · intro h
    rw [get_envelope_eq_circle bbox h]
  · intro h
    rw [get_envelope_eq_rectangle bbox h]
  · have h : |((10000 : ℚ) - 0) * MM_TO_M - ((10050 : ℚ) - 0) * MM_TO_M| <
        1 / 10 * max (((10000 : ℚ) - 0) * MM_TO_M) (((10050 : ℚ) - 0) * MM_TO_M) := by
      rw [abs_sub_comm, abs_of_nonneg (by norm_num [MM_TO_M]),
        max_eq_right (by norm_num [MM_TO_M])]
      norm_num [MM_TO_M]
    rw [get_envelope_eq_circle ⟨0, 10000, 0, 10050, 0, 5000⟩ h]
    have hd : pyRound3 ((((10000 : ℚ) - 0) * MM_TO_M + ((10050 : ℚ) - 0) * MM_TO_M) / 2) =
        10.025 := by
      have hx : ((((10000 : ℚ) - 0) * MM_TO_M + ((10050 : ℚ) - 0) * MM_TO_M) / 2) * 1000 =
          10025 := by
        norm_num [MM_TO_M]
      rw [pyRound3, hx]
      have hf : Int.floor ((10025 : ℚ)) = 10025 := by
        rw [Int.floor_eq_iff]
        norm_num
      rw [roundHalfEven]
      simp only [hf]
      norm_num
    have hh : pyRound3 (((5000 : ℚ) - 0) * MM_TO_M) = 5 := by
      have hx : (((5000 : ℚ) - 0) * MM_TO_M) * 1000 = 5000 := by norm_num [MM_TO_M]
      rw [pyRound3, hx]
      have hf : Int.floor ((5000 : ℚ)) = 5000 := by
        rw [Int.floor_eq_iff]
        norm_num
      rw [roundHalfEven]
      simp only [hf]
      norm_num
    rw [hd, hh]
  · have h : ¬ (|((10000 : ℚ) - 0) * MM_TO_M - ((15000 : ℚ) - 0) * MM_TO_M| <
        1 / 10 * max (((10000 : ℚ) - 0) * MM_TO_M) (((15000 : ℚ) - 0) * MM_TO_M)) := by
      rw [abs_sub_comm, abs_of_nonneg (by norm_num [MM_TO_M]),
        max_eq_right (by norm_num [MM_TO_M])]
      norm_num [MM_TO_M]
    rw [get_envelope_eq_rectangle ⟨0, 10000, 0, 15000, 0, 5000⟩ h]
    have hw : pyRound3 (((10000 : ℚ) - 0) * MM_TO_M) = 10 := by
      have hx : (((10000 : ℚ) - 0) * MM_TO_M) * 1000 = 10000 := by norm_num [MM_TO_M]
      rw [pyRound3, hx]
      have hf : Int.floor ((10000 : ℚ)) = 10000 := by
        rw [Int.floor_eq_iff]
        norm_num
      rw [roundHalfEven]
      simp only [hf]
      norm_num
    have hl : pyRound3 (((15000 : ℚ) - 0) * MM_TO_M) = 15 := by
      have hx : (((15000 : ℚ) - 0) * MM_TO_M) * 1000 = 15000 := by norm_num [MM_TO_M]
      rw [pyRound3, hx]
      have hf : Int.floor ((15000 : ℚ)) = 15000 := by
        rw [Int.floor_eq_iff]
        norm_num
      rw [roundHalfEven]
      simp only [hf]
      norm_num
    have hh : pyRound3 (((5000 : ℚ) - 0) * MM_TO_M) = 5 := by
      have hx : (((5000 : ℚ) - 0) * MM_TO_M) * 1000 = 5000 := by norm_num [MM_TO_M]
      rw [pyRound3, hx]
      have hf : Int.floor ((5000 : ℚ)) = 5000 := by
        rw [Int.floor_eq_iff]
        norm_num
      rw [roundHalfEven]
      simp only [hf]
      norm_num
    rw [hw, hl, hh]

/-- C10: filter_contract_response with detail level full returns the
response dictionary unchanged; with detail level compact, the default the
inline export path uses, it removes exactly the top-level keys metadata,
debug_info and timing and passes every other entry through with its value
unchanged, so the compact contract omits metadata while every other
section is intact. -/
theorem filter_contract_response_spec (response : RespDict) :
    filter_contract_response response DetailLevel.full = response ∧
    filter_contract_response response DetailLevel.compact =
      response.filter
        (fun kv => !(kv.1 == "metadata" || kv.1 == "debug_info" || kv.1 == "timing")) ∧
    (∀ kv : String × Json, kv ∈ filter_contract_response response DetailLevel.compact ↔
      kv ∈ response ∧ kv.1 ≠ "metadata" ∧ kv.1 ≠ "debug_info" ∧ kv.1 ≠ "timing") ∧
    (∀ v : Json, ("metadata", v) ∉ filter_contract_response response DetailLevel.compact) := by
  refine ⟨rfl, rfl, ?_, ?_⟩
  · intro kv
    simp only [filter_contract_response, List.mem_filter, Bool.not_eq_eq_eq_not,
      Bool.not_true, Bool.or_eq_false_iff, beq_eq_false_iff_ne, ne_eq]
    tauto
  · intro v hv
    simp only [filter_contract_response, List.mem_filter] at hv
    simp at hv

/-- C9: apply_placements validates its inputs before any code is sent to
the CAD runtime: with neither contract_json nor contract_path supplied it
returns the explanatory message, and with a contract whose placements
entry is absent or the empty list it returns the no-placements message,
so in both cases the result is an early reply and no placement code is
built or executed against the document. -/
theorem apply_placements_preflight_spec :
    apply_placements_preflight none none =
      PreflightResult.reply "Either contract_json or contract_path must be provided" ∧
    (∀ contract : Json, jsonGetD contract placementsKey (Json.arr []) = Json.arr [] →
      apply_placements_preflight (some contract) none =
        PreflightResult.reply "No placements found in contract") ∧
    (∀ contract : Json, jsonGetD contract placementsKey (Json.arr []) = Json.arr [] →
      apply_placements_preflight none (some (Sum.inr contract)) =
        PreflightResult.reply "No placements found in contract") := by
  refine ⟨rfl, ?_, ?_⟩ <;>
    · intro contract h
      simp [apply_placements_preflight, preflightWithContract, h, pyFalsy]

theorem apply_placements_preflight_witness :
    jsonGetD (Json.obj []) placementsKey (Json.arr []) = Json.arr [] ∧
    apply_placements_preflight (some (Json.obj [])) none =
      PreflightResult.reply "No placements found in contract" :=
  ⟨rfl, apply_placements_preflight_spec.2.1 (Json.obj []) rfl⟩

theorem applyStep_outcome (d : List FcObject) (p : PlacementItem) :
    (applyStep d p).2.1.toList.length + (applyStep d p).2.2.toList.length = 1 := by
  rcases hid : placementObjId p with _ | objId
  · simp [applyStep, hid]
  · rcases hf : find_equipment_by_id d objId with _ | obj
    · simp [applyStep, hid, hf]
    · simp [applyStep, hid, hf]

/-- C5: the id of a placement is resolved by trying, in order, the
EquipmentId property, the normalized name and a display-label lookup that
must return exactly one match; a placement that cannot be resolved only
records a per-item error and leaves the document unchanged, and the loop
gives every placement exactly one outcome, so no unresolved placement
aborts the batch. -/
theorem apply_placements_resolution (doc : List FcObject) (ps : List PlacementItem)
    (eid : String) (p : PlacementItem) :
    ((∃ o ∈ doc, o.equipmentId = some eid) →
      ∃ o2, find_equipment_by_id doc eid = some o2 ∧ o2.equipmentId = some eid) ∧
    ((∀ o ∈ doc, o.equipmentId ≠ some eid) → (∀ o ∈ doc, o.name ≠ normalizeId eid) →
      (doc.filter (fun o => o.label == eid)).length ≠ 1 →
      find_equipment_by_id doc eid = none) ∧
    ((apply_placements_loop doc ps).2.1.length + (apply_placements_loop doc ps).2.2.length =
      ps.length) ∧
    (placementObjId p = some eid → find_equipment_by_id doc eid = none →
      applyStep doc p = (doc, none, some (ApplyError.notFound eid))) ∧
    (placementObjId p = none → applyStep doc p = (doc, none, some ApplyError.missingId)) := by
  refine ⟨?_, ?_, ?_, ?_, ?_⟩
  · rintro ⟨o, ho, heq⟩
    have hsome : (doc.find? (fun o => o.equipmentId == some eid)).isSome := by
      rw [List.find?_isSome]
      exact ⟨o, ho, by simp [heq]⟩
    obtain ⟨o2, ho2⟩ := Option.isSome_iff_exists.mp hsome
    have hprop := List.find?_some ho2
    refine ⟨o2, ?_, ?_⟩
    · simp [find_equipment_by_id, ho2]
    · simpa using hprop
  · intro h1 h2 h3
    have hf1 : doc.find? (fun o => o.equipmentId == some eid) = none := by
      rw [List.find?_eq_none]
      intro o ho
      simpa using h1 o ho
    have hf2 : doc.find? (fun o => o.name == normalizeId eid) = none := by
      rw [List.find?_eq_none]
      intro o ho
      simpa using h2 o ho
    simp [find_equipment_by_id, hf1, hf2, h3]
  · induction ps generalizing doc with
    | nil => simp [apply_placements_loop]
    | cons q rest ih =>
      have h1 := applyStep_outcome doc q
      have h2 := ih (applyStep doc q).1
      simp only [apply_placements_loop, List.length_append, List.length_cons]
      omega
  · intro h1 h2
    simp [applyStep, h1, h2]
  · intro h
    simp [applyStep, h]

theorem apply_placements_resolution_witness :
    placementObjId ⟨some "X", none, none, none, none⟩ = some "X" ∧
    find_equipment_by_id [] "X" = none ∧
    applyStep [] ⟨some "X", none, none, none, none⟩ =
      ([], none, some (ApplyError.notFound "X")) :=
  ⟨rfl, rfl,
    (apply_placements_resolution [] [] "X" ⟨some "X", none, none, none, none⟩).2.2.2.1 rfl rfl⟩

theorem get_envelope_classification_witness :
    (|((10000 : ℚ) - 0) * MM_TO_M - ((10050 : ℚ) - 0) * MM_TO_M| <
        1 / 10 * max (((10000 : ℚ) - 0) * MM_TO_M) (((10050 : ℚ) - 0) * MM_TO_M) →
      (get_envelope ⟨0, 10000, 0, 10050, 0, 5000⟩).1 =
        Envelope.circle
          (pyRound3 ((((10000 : ℚ) - 0) * MM_TO_M + ((10050 : ℚ) - 0) * MM_TO_M) / 2))) :=
  (get_envelope_classification ⟨0, 10000, 0, 10050, 0, 5000⟩).2.1

/-- C2, corrected: the embedded-JSON extractor applied to
pfx ++ json.dumps(obj) ++ sfx returns exactly obj whenever the prefix
contains no opening brace, for every serialisable object value,
including nested structures and strings containing braces and escaped
quotes; the suffix, and with it any later top-level JSON object, is
ignored.  The unrestricted claim over arbitrary prefixes is refuted by
the companion counterexample: the scan starts at the first opening
brace of the whole text, which may lie in the prefix. -/
theorem extract_embedded_json_round_trip (kvs : List (List Char × Json))
    (pfx sfx : List Char) (hpfx : '{' ∉ pfx) :
    extract_json_from_output (pfx ++ dumpsVal (Json.obj kvs) ++ sfx) =
      Except.ok (some (Json.obj kvs)) := by
  rw [extract_json_from_output, extractCandidate_dumps kvs pfx sfx hpfx]
  show (match parseJson (dumpsVal (Json.obj kvs)) with
    | Except.ok v => Except.ok (some v)
    | Except.error err => Except.error err) = Except.ok (some (Json.obj kvs))
  rw [parseJson_dumps]

theorem extract_embedded_json_round_trip_witness :
    extract_json_from_output (['x', ' '] ++ dumpsVal (Json.obj []) ++ ['t']) =
      Except.ok (some (Json.obj [])) :=
  extract_embedded_json_round_trip [] ['x', ' '] ['t'] (by decide)

/-- C2 counterexample: with the one-character prefix consisting of an
opening brace and the empty object as payload, the whole text is three
characters whose brace depth never returns to zero from the first brace,
so the extractor returns the not-found result instead of the payload
object. -/
theorem extract_embedded_json_counterexample :
    extract_json_from_output (['{'] ++ dumpsVal (Json.obj []) ++ []) = Except.ok none ∧
    (Except.ok none : Except String (Option Json)) ≠ Except.ok (some (Json.obj [])) := by
  constructor
  · rfl
  · intro h
    injection h with h1
    exact Option.noConfusion h1

/-- C6: the extractor separates its two failure outcomes.  Any input
without an opening brace, in particular the empty input, gives the
not-found result rather than an error, as does a scan whose brace depth
never returns to zero; when a balanced candidate is found but is
malformed JSON, the decode error propagates to the caller instead of
being converted into the not-found result, as on the concrete input
consisting of a brace-delimited bareword. -/
theorem extract_failure_modes :
    (∀ output : List Char, '{' ∉ output →
      extract_json_from_output output = Except.ok none) ∧
    (∀ output candidate : List Char, ∀ err : String,
      extractCandidate output = some candidate → parseJson candidate = Except.error err →
        extract_json_from_output output = Except.error err) ∧
    extract_json_from_output [] = Except.ok none ∧
    extract_json_from_output ['{', 'o', 'p', 'e', 'n'] = Except.ok none ∧
    extract_json_from_output ['{', 'b', 'a', 'd', '}'] =
      Except.error "Expecting property name enclosed in double quotes" := by
  refine ⟨?_, ?_, rfl, rfl, ?_⟩
  · intro output h
    have hidx : output.findIdx? (fun c => c == '{') = none := by
      rw [List.findIdx?_eq_none_iff]
      intro x hx
      simp only [beq_eq_false_iff_ne]
      intro hEq
      exact h (hEq ▸ hx)
    have hc : extractCandidate output = none := by
      rw [extractCandidate, hidx]
      split <;> rfl
    rw [extract_json_from_output, hc]
  · intro output candidate err h1 h2
    rw [extract_json_from_output, h1]
    show (match parseJson candidate with
      | Except.ok v => Except.ok (some v)
      | Except.error err => Except.error err) = Except.error err
    rw [h2]
  · have hcand : extractCandidate ['{', 'b', 'a', 'd', '}'] = some ['{', 'b', 'a', 'd', '}'] :=
      rfl
    have hv : parseValue 6 ['{', 'b', 'a', 'd', '}'] =
        Except.error "Expecting property name enclosed in double quotes" := by
      rw [parseValue_cons 5 '{' _ (by decide), parseValueCore_brace,
        parseObjStart_nonclose 5 'b' _ (by decide) (by decide), parseMembers,
        skipWs_cons_of_not_ws _ _ (by decide)]
      rfl
    have hp : parseJson ['{', 'b', 'a', 'd', '}'] =
        Except.error "Expecting property name enclosed in double quotes" := by
      rw [parseJson]
      have hl : (['{', 'b', 'a', 'd', '}'] : List Char).length + 1 = 6 := rfl
      rw [hl, hv]
    rw [extract_json_from_output, hcand]
    show (match parseJson ['{', 'b', 'a', 'd', '}'] with
      | Except.ok v => Except.ok (some v)
      | Except.error err => Except.error err) =
        Except.error "Expecting property name enclosed in double quotes"
    rw [hp]

theorem extract_failure_modes_witness :
    extract_json_from_output ['n', 'o', 'p', 'e'] = Except.ok none :=
  extract_failure_modes.1 ['n', 'o', 'p', 'e'] (by decide)

theorem hexDigest_length (st : Hs) : (hexDigest st).length = 64 := by
  simp [hexDigest, hex8, hex4]

theorem nibbleChar_mem (n : ℕ) : nibbleChar n ∈ hexDigitsLower := by
  have h : ∀ m, m < 16 → hexDigitsLower.getD m '0' ∈ hexDigitsLower := by decide
  rw [nibbleChar]
  exact h _ (Nat.mod_lt _ (by norm_num))

theorem hex4_mem (n : ℕ) : ∀ c ∈ hex4 n, c ∈ hexDigitsLower := by
  intro c hc
  simp only [hex4, List.mem_cons, List.not_mem_nil, or_false] at hc
  rcases hc with rfl | rfl | rfl | rfl <;> exact nibbleChar_mem _

theorem hex8_mem (n : ℕ) : ∀ c ∈ hex8 n, c ∈ hexDigitsLower := by
  intro c hc
  rcases List.mem_append.mp hc with h | h <;> exact hex4_mem _ c h

theorem hexDigest_mem (st : Hs) : ∀ c ∈ hexDigest st, c ∈ hexDigitsLower := by
  intro c hc
  simp only [hexDigest, List.mem_append] at hc
  rcases hc with h | h | h | h | h | h | h | h
  all_goals exact hex8_mem _ c h

/-- C8 counterexample: on the empty equipment list the stored hash value
has 23 characters, the scheme tag plus 16 digits, so it is not itself the
16-character truncated digest the sentence describes. -/
theorem export_hash_counterexample :
    export_metadata_hash [] ≠ specTruncatedHash [] := by
  intro h
  have h1 : (export_metadata_hash []).length = 23 := by
    rw [export_metadata_hash, List.length_append, List.length_take, hexDigest_length]
    rfl
  have h2 : (specTruncatedHash []).length = 16 := by
    rw [specTruncatedHash, List.length_take, hexDigest_length]
    norm_num
  rw [h, h2] at h1
  exact absurd h1 (by norm_num)

set_option maxRecDepth 10000 in
/-- C8, corrected: the stored metadata.hash is not the bare 16-character
truncated digest but the scheme tag followed by it; the truncated part is
exactly the first 16 lowercase hexadecimal characters of the SHA-256
digest of the sorted-key JSON serialization of the equipment list, and on
the empty equipment list the stored value is the 23-character string
sha256:4f53cda18c2baa0c, whose hash part matches hashlib. -/
theorem export_metadata_hash_spec :
    (∀ equipment : List Json,
      export_metadata_hash equipment = "sha256:".data ++ specTruncatedHash equipment ∧
      (specTruncatedHash equipment).length = 16 ∧
      ∀ c ∈ specTruncatedHash equipment, c ∈ hexDigitsLower) ∧
    export_metadata_hash [] = "sha256:4f53cda18c2baa0c".data := by
  constructor
  · intro equipment
    refine ⟨rfl, ?_, ?_⟩
    · rw [specTruncatedHash, List.length_take, hexDigest_length]
      norm_num
    · intro c hc
      rw [specTruncatedHash] at hc
      exact hexDigest_mem _ c (List.mem_of_mem_take hc)
  · decide

theorem export_metadata_hash_spec_witness :
    (specTruncatedHash []).length = 16 :=
  (export_metadata_hash_spec.1 []).2.1

end FreecadMcp
